import Mathlib

/-!
coffyg/adcortex: a shallow embedding of the client library.

The Go package `adcortex` has three source files:

* `adcortex_types.go`: the value types and their validating constructors;
* `adcortex_client.go`: the stateless client (`AdCortexFetchAd`, template rendering);
* `adcortex_chat_client.go`: the stateful chat client (cadence policy, fetch, render).

Conventions of the embedding.

* A Go `string` is a sequence of bytes.  It is embedded as a `List Char`, one `Char` per
  byte (the byte `b` is the character with code point `b`), so that `len`, slicing, `+` and
  `==` of Go are `List.length`, `List.take`/`List.drop`, `++` and `=`.
* A Go `int` is a 64-bit two's complement integer.  Values are embedded in `Int`; the two
  subtractions of the chat client go through `wrapInt64`.
* A Go pointer that may be `nil` is an `Option`.  A returned pair `(*T, error)` is a pair of
  `Option`s, so `(nil, nil)` is `(none, none)`.  An `error` is embedded by its text.
* A run-time panic (nil dereference, slice bounds out of range) is the result `none` of a
  method returning `Option`.
* A slice is a `List`; a `nil` slice and an empty slice are not told apart.
* The outcomes of the library calls made during one fetch (`json.Marshal`,
  `http.NewRequest`, `httpClient.Do`, the JSON decoder, `io.ReadAll`) are inputs of the
  embedding, collected in `FetchEnv`.
* `map[string]interface{}` is a type parameter `μ`: the package stores and forwards such
  maps and never inspects them.
* The loop of `adCortexReplaceAll` has no bound in the source; it is embedded with a fuel
  argument and the result `none` when the fuel runs out.
-/

namespace AdCortex

/-! ## Basic types -/

/-- Go `string`: a sequence of bytes, one `Char` per byte. -/
abbrev GoString := List Char

/-- The bytes of a string literal of the source. -/
def str (s : String) : GoString := s.toList

/-- The rendering of an `int` by the verb `%d` of `fmt`: decimal digits, with a leading
minus sign for a negative number. -/
def fmtInt (n : Int) : GoString := (toString n).toList

/-- Two's complement wrap-around of a 64-bit `int`. -/
def wrapInt64 (x : Int) : Int :=
  (x + 9223372036854775808) % 18446744073709551616 - 9223372036854775808

/-- Go `len` of a slice or string, as an `int`. -/
def len {α : Type} (l : List α) : Int := (l.length : Int)

/-! ## `adcortex_types.go` -/

/-- `type AdCortexGender string`. -/
abbrev AdCortexGender := GoString

/-- `type AdCortexRole string`. -/
abbrev AdCortexRole := GoString

/-- `type AdCortexInterest string`. -/
abbrev AdCortexInterest := GoString

def AdCortexGenderMale : AdCortexGender := str "male"
def AdCortexGenderFemale : AdCortexGender := str "female"
def AdCortexGenderOther : AdCortexGender := str "other"

def AdCortexRoleUser : AdCortexRole := str "user"
def AdCortexRoleAI : AdCortexRole := str "ai"

/-- `AdCortexUserInfo` of the source. -/
structure AdCortexUserInfo where
  UserID : GoString
  Age : Int
  Gender : AdCortexGender
  Location : GoString
  Language : GoString
  Interests : List AdCortexInterest
  deriving DecidableEq, Repr

/-- The map literal `validCodes` of `adCortexValidateLocation`, as the list of its keys
(every key is mapped to `true`; a missing key reads as `false`). -/
def validCodes : List GoString :=
  [str "US", str "GB", str "CA", str "FR", str "DE", str "IN"]

/-- `adCortexValidateLocation`: `nil` (`none`) or the error text. -/
def adCortexValidateLocation (location : GoString) : Option GoString :=
  if ¬ (location ∈ validCodes) then
    some (location ++ str " is not a valid or supported country code in this demo")
  else none

/-- `adCortexValidateLanguage`: `nil` (`none`) or the error text. -/
def adCortexValidateLanguage (lang : GoString) : Option GoString :=
  if lang ≠ str "en" then some (str "language must be 'en'") else none

/-- `NewAdCortexUserInfo`: the pair `(*AdCortexUserInfo, error)`. -/
def NewAdCortexUserInfo (userID : GoString) (age : Int) (gender : AdCortexGender)
    (location : GoString) (language : GoString) (interests : List AdCortexInterest) :
    Option AdCortexUserInfo × Option GoString :=
  match adCortexValidateLocation location with
  | some err => (none, some err)
  | none =>
    match adCortexValidateLanguage language with
    | some err => (none, some err)
    | none =>
      (some
        { UserID := userID
          Age := age
          Gender := gender
          Location := location
          Language := language
          Interests := interests },
       none)

/-- `AdCortexPlatform` of the source. -/
structure AdCortexPlatform where
  Name : GoString
  Version : GoString
  deriving DecidableEq, Repr

/-- `AdCortexSessionInfo` of the source; `μ` is the type of `map[string]interface{}`
values and `UserInfo` is a pointer that may be `nil`. -/
structure AdCortexSessionInfo (μ : Type) where
  SessionID : GoString
  CharacterName : GoString
  CharacterMetadata : μ
  UserInfo : Option AdCortexUserInfo
  Platform : AdCortexPlatform

/-- `NewAdCortexSessionInfo`: the pair `(*AdCortexSessionInfo, error)`. -/
def NewAdCortexSessionInfo {μ : Type} (sessionID : GoString) (characterName : GoString)
    (characterMetadata : μ) (userInfo : Option AdCortexUserInfo)
    (platform : AdCortexPlatform) :
    Option (AdCortexSessionInfo μ) × Option GoString :=
  if sessionID = [] then (none, some (str "sessionID cannot be empty"))
  else
    if userInfo.isNone then (none, some (str "userInfo cannot be nil"))
    else
      (some
        { SessionID := sessionID
          CharacterName := characterName
          CharacterMetadata := characterMetadata
          UserInfo := userInfo
          Platform := platform },
       none)

/-- `AdCortexMessage` of the source. -/
structure AdCortexMessage where
  Role : AdCortexRole
  Content : GoString
  deriving DecidableEq, Repr

/-- `AdCortexAd` of the source. -/
structure AdCortexAd where
  Idx : Int
  AdTitle : GoString
  AdDescription : GoString
  PlacementTemplate : GoString
  Link : GoString
  deriving DecidableEq, Repr

/-! ## `adcortex_client.go` -/

/-- `DefaultAdCortexBaseURL` of the source. -/
def DefaultAdCortexBaseURL : GoString := str "https://adcortex.3102labs.com/ads/match"

/-- A `*http.Client` value: the package default or one supplied by the caller. -/
inductive HttpClient where
  | DefaultClient
  | custom (id : Nat)
  deriving DecidableEq, Repr

/-- `AdCortexClient` of the source. -/
structure AdCortexClient (μ : Type) where
  sessionInfo : Option (AdCortexSessionInfo μ)
  contextTemplate : GoString
  apiKey : GoString
  baseURL : GoString
  httpClient : Option HttpClient

/-- `NewAdCortexClient`: the pair `(*AdCortexClient, error)`. -/
def NewAdCortexClient {μ : Type} (sessionInfo : Option (AdCortexSessionInfo μ))
    (contextTemplate : GoString) (apiKey : GoString) (baseURL : GoString)
    (httpClient : Option HttpClient) : Option (AdCortexClient μ) × Option GoString :=
  if apiKey = [] then (none, some (str "apiKey must be provided"))
  else if sessionInfo.isNone then (none, some (str "sessionInfo must not be nil"))
  else
    let httpClient := if httpClient.isNone then some HttpClient.DefaultClient else httpClient
    let baseURL := if baseURL = [] then DefaultAdCortexBaseURL else baseURL
    (some
      { sessionInfo := sessionInfo
        contextTemplate := contextTemplate
        apiKey := apiKey
        baseURL := baseURL
        httpClient := httpClient },
     none)

/-- `adCortexRequestPayload` of the source. -/
structure adCortexRequestPayload (μ : Type) where
  RGUID : GoString
  SessionInfo : Option (AdCortexSessionInfo μ)
  UserData : Option AdCortexUserInfo
  Messages : List AdCortexMessage
  Platform : AdCortexPlatform

/-- The request handed to `httpClient.Do`: a POST to `URL` with the JSON of `Payload` as
body, the header `Content-Type: application/json` and the header `X-API-KEY`. -/
structure HttpRequest (μ : Type) where
  URL : GoString
  APIKey : GoString
  Payload : adCortexRequestPayload μ

/-- What the code reads of a `*http.Response`: the status code, the bytes `io.ReadAll`
yields on the path of a status of 300 or more, the outcome of decoding the body into
`adCortexResponsePayload` (the `Ads` list, or the text of the decode error) and the bytes
`io.ReadAll` yields after a failed decode. -/
structure HttpResponse where
  StatusCode : Int
  Body : GoString
  Decoded : Except GoString (List AdCortexAd)
  Rest : GoString

/-- The outcomes of the library calls of one fetch: the error of `json.Marshal`, the error
of `http.NewRequest` (`none` is `nil`), and the result of `httpClient.Do`. -/
structure FetchEnv where
  marshalErr : Option GoString
  newRequestErr : Option GoString
  doResult : Except GoString HttpResponse

/-- The result of a fetch of the stateless client: the pair `(*AdCortexAd, error)` and
the requests handed to `httpClient.Do` during the call. -/
structure FetchResult (μ : Type) where
  ad : Option AdCortexAd
  err : Option GoString
  requests : List (HttpRequest μ)

/-- `AdCortexClient.AdCortexFetchAd`; `none` is a panic: the nil dereference of
`c.sessionInfo`, or the call of `Do` on a `c.httpClient` that is `nil`. -/
def AdCortexClient.AdCortexFetchAd {μ : Type} (c : AdCortexClient μ)
    (messages : List AdCortexMessage) (env : FetchEnv) : Option (FetchResult μ) :=
  match c.sessionInfo with
  | none => none
  | some si =>
    let payload : adCortexRequestPayload μ :=
      { RGUID := si.SessionID
        SessionInfo := c.sessionInfo
        UserData := si.UserInfo
        Messages := messages
        Platform := si.Platform }
    match env.marshalErr with
    | some err =>
      some ⟨none, some (str "failed to marshal request payload: " ++ err), []⟩
    | none =>
      match env.newRequestErr with
      | some err => some ⟨none, some (str "failed to create request: " ++ err), []⟩
      | none =>
        match c.httpClient with
        | none => none
        | some _ =>
          let req : HttpRequest μ := ⟨c.baseURL, c.apiKey, payload⟩
          match env.doResult with
          | .error err => some ⟨none, some (str "failed to send request: " ++ err), [req]⟩
          | .ok resp =>
            if resp.StatusCode ≥ 300 then
              some ⟨none,
                some (str "received non-OK status " ++ fmtInt resp.StatusCode ++ str ": "
                  ++ resp.Body), [req]⟩
            else
              match resp.Decoded with
              | .error err =>
                some ⟨none,
                  some (str "failed to decode response: " ++ err ++ str ": '" ++ resp.Rest
                    ++ str "'"), [req]⟩
              | .ok ads =>
                match ads with
                | [] => some ⟨none, none, [req]⟩
                | ad :: _ => some ⟨some ad, none, [req]⟩

/-- The loop of `findIndex`: `i` is the loop variable and the first argument bounds the
number of iterations left.  The loop runs while `i + len(sub) <= len(s)`. -/
def findIndexLoop (s sub : GoString) : Nat → Nat → Int
  | 0, _ => -1
  | fuel + 1, i =>
    if i + sub.length ≤ s.length then
      if (s.drop i).take sub.length = sub then (i : Int)
      else findIndexLoop s sub fuel (i + 1)
    else -1

/-- `findIndex`: the first index at which `sub` occurs in `s`, or `-1`.  The loop variable
runs from `0` to at most `len(s)`, so `len(s) + 1` iterations are never exhausted. -/
def findIndex (s sub : GoString) : Int :=
  findIndexLoop s sub (s.length + 1) 0

/-- `adCortexReplaceAll`: the loop `for { ... }` with `fuel` iterations allowed; `none`
when the loop has not reached its `break` within them. -/
def adCortexReplaceAll : Nat → GoString → GoString → GoString → Option GoString
  | 0, _, _, _ => none
  | fuel + 1, s, old, new =>
    let index := findIndex s old
    if index = -1 then some s
    else
      adCortexReplaceAll fuel
        (s.take index.toNat ++ new ++ s.drop (index.toNat + old.length)) old new

/-- `adCortexStrReplace`. -/
def adCortexStrReplace (fuel : Nat) (s old new : GoString) : Option GoString :=
  adCortexReplaceAll fuel s old new

/-- `AdCortexClient.AdCortexGenerateContext`; each of the four replacement loops is allowed
`fuel` iterations. -/
def AdCortexClient.AdCortexGenerateContext {μ : Type} (fuel : Nat) (c : AdCortexClient μ)
    (ad : Option AdCortexAd) : Option GoString :=
  match ad with
  | none => some []
  | some ad =>
    let result := c.contextTemplate
    (adCortexStrReplace fuel result (str "\x7bad_title\x7d") ad.AdTitle).bind fun result =>
    (adCortexStrReplace fuel result (str "\x7bad_description\x7d") ad.AdDescription).bind
      fun result =>
    (adCortexStrReplace fuel result (str "\x7bplacement_template\x7d")
      ad.PlacementTemplate).bind fun result =>
    adCortexStrReplace fuel result (str "\x7blink\x7d") ad.Link

/-! ## `adcortex_chat_client.go` -/

/-- `adCortexShownAd` of the source. -/
structure adCortexShownAd where
  ad : AdCortexAd
  messageIndex : Int
  deriving DecidableEq, Repr

/-- `AdCortexChatClient` of the source. -/
structure AdCortexChatClient (μ : Type) where
  sessionInfo : Option (AdCortexSessionInfo μ)
  contextTemplate : GoString
  apiKey : GoString
  httpClient : Option HttpClient
  numMessagesBeforeAd : Int
  numMessagesBetweenAds : Int
  baseURL : GoString
  messages : List AdCortexMessage
  latestAd : Option AdCortexAd
  shownAds : List adCortexShownAd

/-- `NewAdCortexChatClient`: the pair `(*AdCortexChatClient, error)`. -/
def NewAdCortexChatClient {μ : Type} (sessionInfo : Option (AdCortexSessionInfo μ))
    (contextTemplate : GoString) (apiKey : GoString) (baseURL : GoString)
    (httpClient : Option HttpClient) (numMessagesBeforeAd : Int)
    (numMessagesBetweenAds : Int) : Option (AdCortexChatClient μ) × Option GoString :=
  if sessionInfo.isNone then (none, some (str "sessionInfo cannot be nil"))
  else if apiKey = [] then (none, some (str "apiKey must be provided"))
  else
    let httpClient := if httpClient.isNone then some HttpClient.DefaultClient else httpClient
    let baseURL := if baseURL = [] then DefaultAdCortexBaseURL else baseURL
    (some
      { sessionInfo := sessionInfo
        contextTemplate := contextTemplate
        apiKey := apiKey
        httpClient := httpClient
        numMessagesBeforeAd := numMessagesBeforeAd
        numMessagesBetweenAds := numMessagesBetweenAds
        baseURL := baseURL
        messages := []
        latestAd := none
        shownAds := [] },
     none)

/-- `adCortexShouldShowAd`. -/
def AdCortexChatClient.adCortexShouldShowAd {μ : Type} (c : AdCortexChatClient μ) : Bool :=
  let totalMsgs := len c.messages
  if h : c.shownAds.length = 0 then
    decide (totalMsgs ≥ c.numMessagesBeforeAd)
  else
    let lastShown := c.shownAds.get ⟨c.shownAds.length - 1, by omega⟩
    let msgsSinceLastAd := wrapInt64 (totalMsgs - lastShown.messageIndex)
    decide (msgsSinceLastAd ≥ c.numMessagesBetweenAds)

/-- The result of a call on the chat client: the client after the call, the returned pair
`(*AdCortexAd, error)` and the requests handed to `httpClient.Do` during the call. -/
structure ChatResult (μ : Type) where
  client : AdCortexChatClient μ
  ad : Option AdCortexAd
  err : Option GoString
  requests : List (HttpRequest μ)

/-- `adCortexFetchAd` of the chat client; `none` is a panic: the nil dereference of
`c.sessionInfo`, the slice expression `c.messages[startIndex:]` with `startIndex` beyond
`len(c.messages)`, or the call of `Do` on a `c.httpClient` that is `nil`. -/
def AdCortexChatClient.adCortexFetchAd {μ : Type} (c : AdCortexChatClient μ)
    (env : FetchEnv) : Option (ChatResult μ) :=
  if len c.messages < c.numMessagesBeforeAd then some ⟨c, none, none, []⟩
  else
    let startIndex := wrapInt64 (len c.messages - c.numMessagesBeforeAd)
    let startIndex := if startIndex < 0 then 0 else startIndex
    match c.sessionInfo with
    | none => none
    | some si =>
      if startIndex > len c.messages then none
      else
        let payload : adCortexRequestPayload μ :=
          { RGUID := si.SessionID
            SessionInfo := c.sessionInfo
            UserData := si.UserInfo
            Messages := c.messages.drop startIndex.toNat
            Platform := si.Platform }
        match env.marshalErr with
        | some err =>
          some ⟨c, none, some (str "failed to marshal request payload: " ++ err), []⟩
        | none =>
          match env.newRequestErr with
          | some err => some ⟨c, none, some (str "failed to create request: " ++ err), []⟩
          | none =>
            match c.httpClient with
            | none => none
            | some _ =>
              let req : HttpRequest μ := ⟨c.baseURL, c.apiKey, payload⟩
              match env.doResult with
              | .error err =>
                some ⟨c, none, some (str "failed to do request: " ++ err), [req]⟩
              | .ok resp =>
                if resp.StatusCode ≥ 300 then
                  some ⟨c, none,
                    some (str "received non-OK status " ++ fmtInt resp.StatusCode
                      ++ str ": " ++ resp.Body), [req]⟩
                else
                  match resp.Decoded with
                  | .error err =>
                    some ⟨c, none,
                      some (str "failed to decode response: " ++ err ++ str ": '"
                        ++ resp.Rest ++ str "'"), [req]⟩
                  | .ok ads =>
                    match ads with
                    | [] => some ⟨c, none, none, [req]⟩
                    | ad :: _ =>
                      some
                        ⟨{ c with
                            latestAd := some ad
                            shownAds := c.shownAds ++ [⟨ad, len c.messages⟩] },
                          some ad, none, [req]⟩

/-- The first statement of `AdCortexAddMessage`:
`c.messages = append(c.messages, AdCortexMessage{Role: role, Content: content})`. -/
def AdCortexChatClient.appendMessage {μ : Type} (c : AdCortexChatClient μ)
    (role : AdCortexRole) (content : GoString) : AdCortexChatClient μ :=
  { c with messages := c.messages ++ [AdCortexMessage.mk role content] }

/-- `AdCortexAddMessage`; `none` is a panic of the fetch. -/
def AdCortexChatClient.AdCortexAddMessage {μ : Type} (c : AdCortexChatClient μ)
    (role : AdCortexRole) (content : GoString) (env : FetchEnv) : Option (ChatResult μ) :=
  let c := c.appendMessage role content
  if c.adCortexShouldShowAd then c.adCortexFetchAd env
  else some ⟨c, none, none, []⟩

/-- `AdCortexCreateContext`; each of the four replacement loops is allowed `fuel`
iterations. -/
def AdCortexChatClient.AdCortexCreateContext {μ : Type} (fuel : Nat)
    (c : AdCortexChatClient μ) : Option GoString :=
  match c.latestAd with
  | none => some []
  | some latestAd =>
    let result := c.contextTemplate
    (adCortexStrReplace fuel result (str "\x7bad_title\x7d") latestAd.AdTitle).bind
      fun result =>
    (adCortexStrReplace fuel result (str "\x7bad_description\x7d")
      latestAd.AdDescription).bind fun result =>
    (adCortexStrReplace fuel result (str "\x7bplacement_template\x7d")
      latestAd.PlacementTemplate).bind fun result =>
    adCortexStrReplace fuel result (str "\x7blink\x7d") latestAd.Link

/-! ## Runs of the chat client -/

/-- One call of a run: the arguments of `AdCortexAddMessage` and the outcomes of the
library calls of the fetch that the call may make. -/
structure Call where
  role : AdCortexRole
  content : GoString
  env : FetchEnv

/-- A run: the calls are made one after the other on the same client.  The result is the
client after the last call and the results of the calls in order; `none` when a call
panics. -/
def runCalls {μ : Type} (c : AdCortexChatClient μ) :
    List Call → Option (AdCortexChatClient μ × List (ChatResult μ))
  | [] => some (c, [])
  | call :: calls =>
    match c.AdCortexAddMessage call.role call.content call.env with
    | none => none
    | some r =>
      match runCalls r.client calls with
      | none => none
      | some (c, rs) => some (c, r :: rs)

/-! ## Outcomes of a fetch, used to state the properties -/

/-- The two pointers of a client that a fetch dereferences are set.  The constructor
returns no client with a `nil` session and replaces a `nil` HTTP client by the default
one. -/
def AdCortexClient.nonNil {μ : Type} (c : AdCortexClient μ) : Bool :=
  c.sessionInfo.isSome && c.httpClient.isSome

/-- The two pointers of a chat client that a fetch dereferences are set. -/
def AdCortexChatClient.nonNil {μ : Type} (c : AdCortexChatClient μ) : Bool :=
  c.sessionInfo.isSome && c.httpClient.isSome

/-- The service answers the request with a status below 300 and a body that decodes to a
non-empty list of ads. -/
def FetchEnv.returnsAd (env : FetchEnv) : Bool :=
  env.marshalErr.isNone && env.newRequestErr.isNone &&
    match env.doResult with
    | .error _ => false
    | .ok resp =>
      decide (resp.StatusCode < 300) &&
        match resp.Decoded with
        | .ok (_ :: _) => true
        | _ => false

/-- The service answers the request with a status below 300 and a body that decodes to an
empty list of ads. -/
def FetchEnv.zeroAds (env : FetchEnv) : Bool :=
  env.marshalErr.isNone && env.newRequestErr.isNone &&
    match env.doResult with
    | .error _ => false
    | .ok resp =>
      decide (resp.StatusCode < 300) &&
        match resp.Decoded with
        | .ok [] => true
        | _ => false

/-- The fetch fails: the request cannot be built or sent, or the answer has a status of 300
or more, or its body does not decode. -/
def FetchEnv.failure (env : FetchEnv) : Bool :=
  env.marshalErr.isSome || env.newRequestErr.isSome ||
    match env.doResult with
    | .error _ => true
    | .ok resp =>
      decide (resp.StatusCode ≥ 300) ||
        match resp.Decoded with
        | .error _ => true
        | .ok _ => false

/-- The number of requests handed to the transport during the calls of a run. -/
def fetchCount {μ : Type} (rs : List (ChatResult μ)) : Nat :=
  (rs.map fun r => r.requests.length).sum

/-! ## Sample values, taken from the tests of the repository -/

/-- The ad of the mock server of `TestAdCortexChatClientBasic`. -/
def sampleAd : AdCortexAd :=
  { Idx := 123
    AdTitle := str "Mock Chat Ad"
    AdDescription := str "Description Chat"
    PlacementTemplate := str "Template Chat"
    Link := str "http://chat.example.com" }

/-- The user of the tests. -/
def sampleUser : AdCortexUserInfo :=
  { UserID := str "user123"
    Age := 20
    Gender := AdCortexGenderFemale
    Location := str "US"
    Language := str "en"
    Interests := [] }

/-- The session of `TestAdCortexChatClientBasic`, with the metadata map left out. -/
def sampleSession : AdCortexSessionInfo Unit :=
  { SessionID := str "chat-session-456"
    CharacterName := str "CompanionBot"
    CharacterMetadata := ()
    UserInfo := some sampleUser
    Platform := { Name := str "android", Version := str "13" } }

/-- The chat client of `TestAdCortexChatClientBasic` as the constructor returns it, for the
thresholds `N` and `B`. -/
def sampleChat (N B : Int) : AdCortexChatClient Unit :=
  { sessionInfo := some sampleSession
    contextTemplate := str "Check out this product: \x7bad_title\x7d - \x7blink\x7d"
    apiKey := str "TEST_API_KEY"
    httpClient := some HttpClient.DefaultClient
    numMessagesBeforeAd := N
    numMessagesBetweenAds := B
    baseURL := str "http://127.0.0.1:8080"
    messages := []
    latestAd := none
    shownAds := [] }

/-- The mock server of the test: status 200 and one ad. -/
def sampleEnv : FetchEnv :=
  { marshalErr := none
    newRequestErr := none
    doResult := .ok { StatusCode := 200, Body := [], Decoded := .ok [sampleAd], Rest := [] } }

/-- A call of the test with the mock server behind it. -/
def sampleCall (role : AdCortexRole) (content : String) : Call :=
  { role := role, content := str content, env := sampleEnv }

/-- The chat client of the test after its third message: three messages, and the ad of
the mock server shown at message count 3. -/
def sampleChatShown : AdCortexChatClient Unit :=
  { sampleChat 3 2 with
    messages :=
      [⟨AdCortexRoleUser, str "Hello"⟩, ⟨AdCortexRoleAI, str "Hi there!"⟩,
        ⟨AdCortexRoleUser, str "How are you?"⟩]
    latestAd := some sampleAd
    shownAds := [⟨sampleAd, 3⟩] }

/-- The five calls of `TestAdCortexChatClientBasic`. -/
def sampleCalls : List Call :=
  [sampleCall AdCortexRoleUser "Hello", sampleCall AdCortexRoleAI "Hi there!",
    sampleCall AdCortexRoleUser "How are you?",
    sampleCall AdCortexRoleAI "I am just a bot, but good!",
    sampleCall AdCortexRoleUser "Great!"]

/-- A service that answers with status 500 and the body `boom`. -/
def sampleFailEnv : FetchEnv :=
  { marshalErr := none
    newRequestErr := none
    doResult :=
      .ok { StatusCode := 500, Body := str "boom", Decoded := .error (str "EOF"),
            Rest := [] } }

/-- The client of `TestAdCortexClientFetchAd` as the constructor returns it, for the
template `template`. -/
def sampleClient (template : GoString) : AdCortexClient Unit :=
  { sessionInfo := some sampleSession
    contextTemplate := template
    apiKey := str "TEST_API_KEY"
    baseURL := str "http://127.0.0.1:8080"
    httpClient := some HttpClient.DefaultClient }

/-- The variable `startIndex` of `adCortexFetchAd`, as the slice expression
`c.messages[startIndex:]` reads it: `len(c.messages) - c.numMessagesBeforeAd`, replaced
by `0` when it is negative. -/
def AdCortexChatClient.startIndex {μ : Type} (c : AdCortexChatClient μ) : Int :=
  let startIndex := wrapInt64 (len c.messages - c.numMessagesBeforeAd)
  if startIndex < 0 then 0 else startIndex

/-- The chat client of the test after its fourth message. -/
def sampleChatFour : AdCortexChatClient Unit :=
  sampleChatShown.appendMessage AdCortexRoleAI (str "I am just a bot, but good!")

/-! ## Rendering, as the specification words it -/

/-- The opening brace, the first character of every placeholder token. -/
def openBrace : Char := Char.ofNat 123

/-- The four placeholder tokens of the renderer. -/
inductive Token where
  | adTitle
  | adDescription
  | placementTemplate
  | link
  deriving DecidableEq, Repr

/-- The text of a token, as `AdCortexGenerateContext` writes it. -/
def Token.text : Token → GoString
  | .adTitle => str "\x7bad_title\x7d"
  | .adDescription => str "\x7bad_description\x7d"
  | .placementTemplate => str "\x7bplacement_template\x7d"
  | .link => str "\x7blink\x7d"

/-- The field of the ad that `AdCortexGenerateContext` substitutes for a token. -/
def Token.field (ad : AdCortexAd) : Token → GoString
  | .adTitle => ad.AdTitle
  | .adDescription => ad.AdDescription
  | .placementTemplate => ad.PlacementTemplate
  | .link => ad.Link

/-- The token that the string starts with, if it starts with one. -/
def matchToken (s : GoString) : Option Token :=
  [Token.adTitle, Token.adDescription, Token.placementTemplate, Token.link].find?
    fun k => k.text.isPrefixOf s

/-- The rendering that the specification describes: one left-to-right scan of the
template in which each occurrence of a token is replaced by the field of the ad and the
inserted text is never scanned.  The first argument is the number of characters of a
matched token that are still to be skipped. -/
def renderScan (ad : AdCortexAd) : Nat → GoString → GoString
  | _, [] => []
  | skip + 1, _ :: rest => renderScan ad skip rest
  | 0, c :: rest =>
    match matchToken (c :: rest) with
    | some k => k.field ad ++ renderScan ad (k.text.length - 1) rest
    | none => c :: renderScan ad 0 rest

/-- The scan of `stringsReplaceAll`; the first argument is the number of characters of a
matched occurrence that are still to be skipped. -/
def stringsReplaceAllFrom (old new : GoString) : Nat → GoString → GoString
  | _, [] => []
  | skip + 1, _ :: rest => stringsReplaceAllFrom old new skip rest
  | 0, c :: rest =>
    if old.isPrefixOf (c :: rest) then
      new ++ stringsReplaceAllFrom old new (old.length - 1) rest
    else c :: stringsReplaceAllFrom old new 0 rest

/-- `strings.ReplaceAll` of the Go library for a non-empty `old`, as the specification
words it: the non-overlapping occurrences of `old` found in one left-to-right scan of the
original `s` are replaced by `new`. -/
def stringsReplaceAll (s old new : GoString) : GoString :=
  stringsReplaceAllFrom old new 0 s

/-- A piece of a template: a text or a token. -/
inductive Piece where
  | text (t : GoString)
  | token (k : Token)
  deriving DecidableEq, Repr

/-- The characters of a piece in the template. -/
def Piece.source : Piece → GoString
  | .text t => t
  | .token k => k.text

/-- The characters of a piece after the substitution of the fields of the ad. -/
def Piece.rendered (ad : AdCortexAd) : Piece → GoString
  | .text t => t
  | .token k => k.field ad

/-- The template made of the pieces. -/
def piecesSource : List Piece → GoString
  | [] => []
  | p :: ps => p.source ++ piecesSource ps

/-- The pieces with the fields of the ad in place of the tokens. -/
def piecesRendered (ad : AdCortexAd) : List Piece → GoString
  | [] => []
  | p :: ps => p.rendered ad ++ piecesRendered ad ps

/-- The pieces of the template of `TestAdCortexClientFetchAd`,
`Buy now: ` then the title token then ` - ` then the link token. -/
def buyNowPieces : List Piece :=
  [.text (str "Buy now: "), .token .adTitle, .text (str " - "), .token .link]

/-- An ad whose title is the text of the link token. -/
def cascadeAd : AdCortexAd :=
  { Idx := 1
    AdTitle := str "\x7blink\x7d"
    AdDescription := str "D"
    PlacementTemplate := str "P"
    Link := str "L" }

/-- An ad whose link is the text of the title token. -/
def leftoverAd : AdCortexAd :=
  { Idx := 1
    AdTitle := str "T"
    AdDescription := str "D"
    PlacementTemplate := str "P"
    Link := str "\x7bad_title\x7d" }

/-- An ad whose title is the text of the title token. -/
def loopAd : AdCortexAd :=
  { Idx := 1
    AdTitle := str "\x7bad_title\x7d"
    AdDescription := str "D"
    PlacementTemplate := str "P"
    Link := str "L" }

/-- The piece after the pass of the token `k`: the token `k` becomes the text `new`. -/
def Piece.substitute (k : Token) (new : GoString) : Piece → Piece
  | .text t => .text t
  | .token m => if m = k then .text new else .token m

/-- The order in which `AdCortexGenerateContext` and `AdCortexCreateContext` substitute
the four tokens. -/
def codeOrder : List Token :=
  [.adTitle, .adDescription, .placementTemplate, .link]

/-- The steps `result = adCortexStrReplace(result, token, field)` of the renderer, one for
each token of the list, in the order of the list; each loop is allowed `fuel`
iterations. -/
def renderInOrder (fuel : Nat) (ad : AdCortexAd) : List Token → GoString → Option GoString
  | [], s => some s
  | k :: ks, s => (adCortexStrReplace fuel s k.text (k.field ad)).bind (renderInOrder fuel ad ks)

/-- The pieces after the passes of the tokens of the list, in the order of the list. -/
def substituteInOrder (ad : AdCortexAd) : List Token → List Piece → List Piece
  | [], ps => ps
  | k :: ks, ps => substituteInOrder ad ks (ps.map (Piece.substitute k (k.field ad)))

/-- The library outcomes of a fetch whose payload `json.Marshal` refuses, as it does when
the metadata map of the session, which the model leaves abstract, holds a value with no
JSON form such as a channel; `httpClient.Do` is not reached. -/
def sampleMarshalFailEnv : FetchEnv :=
  { marshalErr := some (str "json: unsupported type: chan int")
    newRequestErr := none
    doResult := .error [] }

/-! ## Lemmas -/

theorem wrapInt64_of_range (x : Int) (h1 : -9223372036854775808 ≤ x)
    (h2 : x < 9223372036854775808) : wrapInt64 x = x := by
  unfold wrapInt64; omega

theorem wrapInt64_le_of_nonneg (x : Int) (h : 0 ≤ x) : wrapInt64 x ≤ x := by
  unfold wrapInt64; omega

theorem get_last_append {α : Type} (l pre : List α) (s : α) (hl : l = pre ++ [s])
    (h : l.length - 1 < l.length) : l.get ⟨l.length - 1, h⟩ = s := by
  subst hl
  simp [List.get_eq_getElem]

theorem shouldShowAd_empty {μ : Type} (c : AdCortexChatClient μ) (h : c.shownAds = []) :
    c.adCortexShouldShowAd = decide (len c.messages ≥ c.numMessagesBeforeAd) := by
  simp [AdCortexChatClient.adCortexShouldShowAd, h]

theorem shouldShowAd_last {μ : Type} (c : AdCortexChatClient μ) (pre : List adCortexShownAd)
    (s : adCortexShownAd) (h : c.shownAds = pre ++ [s]) :
    c.adCortexShouldShowAd
      = decide (wrapInt64 (len c.messages - s.messageIndex) ≥ c.numMessagesBetweenAds) := by
  have hne : ¬ c.shownAds.length = 0 := by simp [h]
  simp only [AdCortexChatClient.adCortexShouldShowAd, hne, dite_false]
  rw [get_last_append c.shownAds pre s h]

theorem len_append_one {α : Type} (l : List α) (a : α) : len (l ++ [a]) = len l + 1 := by
  simp [len]

theorem len_nonneg {α : Type} (l : List α) : 0 ≤ len l := by
  simp [len]

theorem chat_nonNil_iff {μ : Type} (c : AdCortexChatClient μ) :
    c.nonNil = true ↔ ∃ si hc, c.sessionInfo = some si ∧ c.httpClient = some hc := by
  unfold AdCortexChatClient.nonNil
  cases c.sessionInfo <;> cases c.httpClient <;> simp

/-- A fetch on a client that holds at least `numMessagesBeforeAd >= 0` messages and whose
session and HTTP client are set hands exactly one request to the transport once the
request is built. -/
theorem fetchAd_sends {μ : Type} (c : AdCortexChatClient μ) (env : FetchEnv)
    (h0 : 0 ≤ c.numMessagesBeforeAd) (hN : c.numMessagesBeforeAd ≤ len c.messages)
    (hp : c.nonNil = true) (hm : env.marshalErr = none)
    (hr : env.newRequestErr = none) :
    ∃ r, c.adCortexFetchAd env = some r ∧ r.requests.length = 1 := by
  have hlen := len_nonneg c.messages
  have hw := wrapInt64_le_of_nonneg (len c.messages - c.numMessagesBeforeAd) (by omega)
  obtain ⟨si, hc, hsi, hhc⟩ := (chat_nonNil_iff c).mp hp
  have hg : ¬ len c.messages < c.numMessagesBeforeAd := by omega
  unfold AdCortexChatClient.adCortexFetchAd
  simp only [hg, if_false, hsi, hhc, hm, hr]
  split_ifs with h1 h2 h2
  · omega
  · cases env.doResult with
    | error e => exact ⟨_, rfl, rfl⟩
    | ok resp =>
      simp only
      split_ifs
      · exact ⟨_, rfl, rfl⟩
      · cases resp.Decoded with
        | error e => exact ⟨_, rfl, rfl⟩
        | ok ads =>
          cases ads with
          | nil => exact ⟨_, rfl, rfl⟩
          | cons a t => exact ⟨_, rfl, rfl⟩
  · omega
  · cases env.doResult with
    | error e => exact ⟨_, rfl, rfl⟩
    | ok resp =>
      simp only
      split_ifs
      · exact ⟨_, rfl, rfl⟩
      · cases resp.Decoded with
        | error e => exact ⟨_, rfl, rfl⟩
        | ok ads =>
          cases ads with
          | nil => exact ⟨_, rfl, rfl⟩
          | cons a t => exact ⟨_, rfl, rfl⟩

@[simp] theorem appendMessage_messages {μ : Type} (c : AdCortexChatClient μ)
    (role : AdCortexRole) (content : GoString) :
    (c.appendMessage role content).messages
      = c.messages ++ [AdCortexMessage.mk role content] := rfl

@[simp] theorem appendMessage_shownAds {μ : Type} (c : AdCortexChatClient μ)
    (role : AdCortexRole) (content : GoString) :
    (c.appendMessage role content).shownAds = c.shownAds := rfl

@[simp] theorem appendMessage_latestAd {μ : Type} (c : AdCortexChatClient μ)
    (role : AdCortexRole) (content : GoString) :
    (c.appendMessage role content).latestAd = c.latestAd := rfl

@[simp] theorem appendMessage_sessionInfo {μ : Type} (c : AdCortexChatClient μ)
    (role : AdCortexRole) (content : GoString) :
    (c.appendMessage role content).sessionInfo = c.sessionInfo := rfl

@[simp] theorem appendMessage_numMessagesBeforeAd {μ : Type} (c : AdCortexChatClient μ)
    (role : AdCortexRole) (content : GoString) :
    (c.appendMessage role content).numMessagesBeforeAd = c.numMessagesBeforeAd := rfl

@[simp] theorem appendMessage_numMessagesBetweenAds {μ : Type} (c : AdCortexChatClient μ)
    (role : AdCortexRole) (content : GoString) :
    (c.appendMessage role content).numMessagesBetweenAds = c.numMessagesBetweenAds := rfl

@[simp] theorem appendMessage_nonNil {μ : Type} (c : AdCortexChatClient μ)
    (role : AdCortexRole) (content : GoString) :
    (c.appendMessage role content).nonNil = c.nonNil := rfl

theorem len_appendMessage {μ : Type} (c : AdCortexChatClient μ)
    (role : AdCortexRole) (content : GoString) :
    len (c.appendMessage role content).messages = len c.messages + 1 := by
  simp [len]

/-- A call made while no ad has been shown and the count after the append is below
`numMessagesBeforeAd` only appends the message. -/
theorem addMessage_below_first {μ : Type} (c : AdCortexChatClient μ) (role : AdCortexRole)
    (content : GoString) (env : FetchEnv) (hlog : c.shownAds = [])
    (hlt : len c.messages + 1 < c.numMessagesBeforeAd) :
    c.AdCortexAddMessage role content env
      = some ⟨c.appendMessage role content, none, none, []⟩ := by
  unfold AdCortexChatClient.AdCortexAddMessage
  simp only
  rw [shouldShowAd_empty (c.appendMessage role content) hlog]
  have : ¬ (len (c.appendMessage role content).messages
      ≥ (c.appendMessage role content).numMessagesBeforeAd) := by
    rw [len_appendMessage, appendMessage_numMessagesBeforeAd]; omega
  simp only [this, decide_False, Bool.false_eq_true, if_false]

theorem runCalls_cons {μ : Type} (x : Call) (xs : List Call) (c : AdCortexChatClient μ) :
    runCalls c (x :: xs)
      = match c.AdCortexAddMessage x.role x.content x.env with
        | none => none
        | some r =>
          match runCalls r.client xs with
          | none => none
          | some (c1, rs) => some (c1, r :: rs) := rfl

theorem runCalls_append {μ : Type} (xs ys : List Call) (c : AdCortexChatClient μ) :
    runCalls c (xs ++ ys)
      = match runCalls c xs with
        | none => none
        | some (c1, rs) =>
          match runCalls c1 ys with
          | none => none
          | some (c2, rs2) => some (c2, rs ++ rs2) := by
  induction xs generalizing c with
  | nil =>
    simp only [List.nil_append, runCalls]
    cases runCalls c ys <;> simp
  | cons x xs ih =>
    rw [List.cons_append, runCalls_cons, runCalls_cons]
    cases c.AdCortexAddMessage x.role x.content x.env with
    | none => rfl
    | some r =>
      simp only [ih]
      cases runCalls r.client xs with
      | none => rfl
      | some p =>
        obtain ⟨c1, rs⟩ := p
        simp only
        cases runCalls c1 ys <;> simp

/-- Calls made while no ad has been shown and the count stays below `numMessagesBeforeAd`
only append their messages. -/
theorem runCalls_below_first {μ : Type} (calls : List Call) (c : AdCortexChatClient μ)
    (hlog : c.shownAds = [])
    (hlt : len c.messages + (calls.length : Int) < c.numMessagesBeforeAd) :
    ∃ c1 rs, runCalls c calls = some (c1, rs) ∧ rs.length = calls.length ∧
      (∀ x ∈ rs, x.ad = none ∧ x.err = none ∧ x.requests = []) ∧
      c1.shownAds = [] ∧ c1.nonNil = c.nonNil ∧
      c1.numMessagesBeforeAd = c.numMessagesBeforeAd ∧
      len c1.messages = len c.messages + calls.length := by
  induction calls generalizing c with
  | nil => exact ⟨c, [], rfl, rfl, by simp, hlog, rfl, rfl, by simp⟩
  | cons x xs ih =>
    simp only [List.length_cons, Nat.cast_add, Nat.cast_one] at hlt
    have h1 := addMessage_below_first c x.role x.content x.env hlog (by omega)
    obtain ⟨c1, rs, hrun, hl, hall, hlog1, hsi1, hN1, hlen1⟩ :=
      ih (c.appendMessage x.role x.content) hlog
        (by rw [len_appendMessage, appendMessage_numMessagesBeforeAd]; omega)
    refine ⟨c1, ⟨c.appendMessage x.role x.content, none, none, []⟩ :: rs,
      ?_, ?_, ?_, hlog1, hsi1, hN1, ?_⟩
    · rw [runCalls_cons, h1]; simp only [hrun]
    · simp [hl]
    · intro y hy
      rcases List.mem_cons.mp hy with rfl | hy
      · exact ⟨rfl, rfl, rfl⟩
      · exact hall y hy
    · rw [hlen1, len_appendMessage]
      simp only [List.length_cons, Nat.cast_add, Nat.cast_one]; omega

/-- C1. While no ad has been shown, a call of `AdCortexAddMessage` on a client with
`numMessagesBeforeAd = N >= 1` is due exactly when the message count after the append
reaches `N`: below `N` the call returns `(nil, nil)` and hands nothing to the transport,
from `N` on it hands exactly one request to the transport (the session and the HTTP client
are set, as the constructor leaves them, and the request is built); so on a client
without messages the first `N - 1` calls make no fetch and the `N`-th makes exactly
one. -/
theorem addMessage_first_ad_threshold {μ : Type} (c : AdCortexChatClient μ)
    (hN : 1 ≤ c.numMessagesBeforeAd) (hlog : c.shownAds = [])
    (hp : c.nonNil = true) :
    (∀ (role : AdCortexRole) (content : GoString),
      (c.appendMessage role content).adCortexShouldShowAd = true
        ↔ c.numMessagesBeforeAd ≤ len c.messages + 1) ∧
    (∀ (role : AdCortexRole) (content : GoString) (env : FetchEnv),
      len c.messages + 1 < c.numMessagesBeforeAd →
      c.AdCortexAddMessage role content env
        = some ⟨c.appendMessage role content, none, none, []⟩) ∧
    (∀ (role : AdCortexRole) (content : GoString) (env : FetchEnv),
      c.numMessagesBeforeAd ≤ len c.messages + 1 →
      env.marshalErr = none → env.newRequestErr = none →
      ∃ r, c.AdCortexAddMessage role content env = some r ∧ r.requests.length = 1) ∧
    (∀ (pre : List Call) (last : Call),
      len c.messages + (pre.length : Int) + 1 = c.numMessagesBeforeAd →
      last.env.marshalErr = none → last.env.newRequestErr = none →
      ∃ c1 rs r, runCalls c (pre ++ [last]) = some (c1, rs ++ [r]) ∧
        rs.length = pre.length ∧
        (∀ x ∈ rs, x.ad = none ∧ x.err = none ∧ x.requests = []) ∧
        r.requests.length = 1) := by
  have single : ∀ (d : AdCortexChatClient μ) (role : AdCortexRole) (content : GoString)
      (env : FetchEnv), 1 ≤ d.numMessagesBeforeAd → d.shownAds = [] →
      d.nonNil = true → d.numMessagesBeforeAd ≤ len d.messages + 1 →
      env.marshalErr = none → env.newRequestErr = none →
      ∃ r, d.AdCortexAddMessage role content env = some r ∧ r.requests.length = 1 := by
    intro d role content env hdN hdlog hdsi hge hm hr
    unfold AdCortexChatClient.AdCortexAddMessage
    simp only
    rw [shouldShowAd_empty (d.appendMessage role content) hdlog]
    have hdue : len (d.appendMessage role content).messages
        ≥ (d.appendMessage role content).numMessagesBeforeAd := by
      rw [len_appendMessage, appendMessage_numMessagesBeforeAd]; omega
    simp only [hdue, decide_True, if_true]
    exact fetchAd_sends _ env (by rw [appendMessage_numMessagesBeforeAd]; omega) hdue hdsi hm hr
  refine ⟨?_, ?_, ?_, ?_⟩
  · intro role content
    rw [shouldShowAd_empty (c.appendMessage role content) hlog]
    simp only [len_appendMessage, appendMessage_numMessagesBeforeAd, ge_iff_le,
      decide_eq_true_eq]
  · intro role content env hlt
    exact addMessage_below_first c role content env hlog hlt
  · intro role content env hge hm hr
    exact single c role content env hN hlog hp hge hm hr
  · intro pre last hlen hm hr
    obtain ⟨c1, rs, hrun, hl, hall, hlog1, hsi1, hN1, hlen1⟩ :=
      runCalls_below_first pre c hlog (by omega)
    obtain ⟨r, hr1, hr2⟩ := single c1 last.role last.content last.env (by omega) hlog1
      (by rw [hsi1]; exact hp) (by omega) hm hr
    refine ⟨r.client, rs, r, ?_, hl, hall, hr2⟩
    rw [runCalls_append, hrun]
    simp only [runCalls_cons, hr1, runCalls]

/-- The first three calls of the test, with thresholds 3 and 2, as an instance of C1. -/
theorem addMessage_first_ad_threshold_witness :
    (1 : Int) ≤ (sampleChat 3 2).numMessagesBeforeAd ∧ (sampleChat 3 2).shownAds = [] ∧
    (sampleChat 3 2).nonNil = true ∧
    ∃ c1 rs r,
      runCalls (sampleChat 3 2)
          ([sampleCall AdCortexRoleUser "Hello", sampleCall AdCortexRoleAI "Hi there!"]
            ++ [sampleCall AdCortexRoleUser "How are you?"])
        = some (c1, rs ++ [r]) ∧
      rs.length = 2 ∧ (∀ x ∈ rs, x.ad = none ∧ x.err = none ∧ x.requests = []) ∧
      r.requests.length = 1 :=
  ⟨by decide, rfl, rfl,
    (addMessage_first_ad_threshold (sampleChat 3 2) (by decide) rfl rfl).2.2.2
      [sampleCall AdCortexRoleUser "Hello", sampleCall AdCortexRoleAI "Hi there!"]
      (sampleCall AdCortexRoleUser "How are you?") (by decide) rfl rfl⟩

theorem addMessage_of_due {μ : Type} (c : AdCortexChatClient μ) (role : AdCortexRole)
    (content : GoString) (env : FetchEnv)
    (h : (c.appendMessage role content).adCortexShouldShowAd = true) :
    c.AdCortexAddMessage role content env
      = (c.appendMessage role content).adCortexFetchAd env := by
  unfold AdCortexChatClient.AdCortexAddMessage
  simp only [h, if_true]

theorem addMessage_of_not_due {μ : Type} (c : AdCortexChatClient μ) (role : AdCortexRole)
    (content : GoString) (env : FetchEnv)
    (h : (c.appendMessage role content).adCortexShouldShowAd = false) :
    c.AdCortexAddMessage role content env
      = some ⟨c.appendMessage role content, none, none, []⟩ := by
  unfold AdCortexChatClient.AdCortexAddMessage
  simp only [h, Bool.false_eq_true, if_false]

/-- The due check after an append when the last record of the log was made at a message
count between `0` and the current one. -/
theorem shouldShowAd_append_last {μ : Type} (c : AdCortexChatClient μ)
    (pre : List adCortexShownAd) (s : adCortexShownAd) (role : AdCortexRole)
    (content : GoString) (hlog : c.shownAds = pre ++ [s]) (hM0 : 0 ≤ s.messageIndex)
    (hM : s.messageIndex ≤ len c.messages)
    (hlen : len c.messages + 1 < 9223372036854775808) :
    (c.appendMessage role content).adCortexShouldShowAd
      = decide (c.numMessagesBetweenAds ≤ len c.messages + 1 - s.messageIndex) := by
  rw [shouldShowAd_last (c.appendMessage role content) pre s hlog, len_appendMessage,
    appendMessage_numMessagesBetweenAds,
    wrapInt64_of_range (len c.messages + 1 - s.messageIndex) (by omega) (by omega)]

/-- Calls made while the count of messages since the last record stays below
`numMessagesBetweenAds` only append their messages. -/
theorem runCalls_below_between {μ : Type} (calls : List Call) (c : AdCortexChatClient μ)
    (pre : List adCortexShownAd) (s : adCortexShownAd) (hlog : c.shownAds = pre ++ [s])
    (hM0 : 0 ≤ s.messageIndex) (hM : s.messageIndex ≤ len c.messages)
    (hlen : len c.messages + (calls.length : Int) < 9223372036854775808)
    (hlt : len c.messages + (calls.length : Int) - s.messageIndex
      < c.numMessagesBetweenAds) :
    ∃ c1 rs, runCalls c calls = some (c1, rs) ∧ rs.length = calls.length ∧
      (∀ x ∈ rs, x.ad = none ∧ x.err = none ∧ x.requests = []) ∧
      c1.shownAds = c.shownAds ∧ c1.nonNil = c.nonNil ∧
      c1.numMessagesBeforeAd = c.numMessagesBeforeAd ∧
      c1.numMessagesBetweenAds = c.numMessagesBetweenAds ∧
      len c1.messages = len c.messages + calls.length := by
  induction calls generalizing c with
  | nil => exact ⟨c, [], rfl, rfl, by simp, rfl, rfl, rfl, rfl, by simp⟩
  | cons x xs ih =>
    simp only [List.length_cons, Nat.cast_add, Nat.cast_one] at hlt hlen
    have hnd : (c.appendMessage x.role x.content).adCortexShouldShowAd = false := by
      rw [shouldShowAd_append_last c pre s x.role x.content hlog hM0 hM (by omega)]
      simp only [decide_eq_false_iff_not, not_le]
      omega
    have h1 := addMessage_of_not_due c x.role x.content x.env hnd
    obtain ⟨c1, rs, hrun, hl, hall, hlog1, hsi1, hN1, hB1, hlen1⟩ :=
      ih (c.appendMessage x.role x.content) hlog
        (by rw [len_appendMessage]; omega)
        (by rw [len_appendMessage]; omega)
        (by rw [len_appendMessage, appendMessage_numMessagesBetweenAds]; omega)
    refine ⟨c1, ⟨c.appendMessage x.role x.content, none, none, []⟩ :: rs,
      ?_, ?_, ?_, hlog1, hsi1, hN1, hB1, ?_⟩
    · rw [runCalls_cons, h1]; simp only [hrun]
    · simp [hl]
    · intro y hy
      rcases List.mem_cons.mp hy with rfl | hy
      · exact ⟨rfl, rfl, rfl⟩
      · exact hall y hy
    · rw [hlen1, len_appendMessage]
      simp only [List.length_cons, Nat.cast_add, Nat.cast_one]; omega

/-- C2. When the last record of the shown-ad log was made at message count `M`, a call of
`AdCortexAddMessage` is due exactly when `len(messages) - M >= numMessagesBetweenAds`
after the append: below the threshold the call returns `(nil, nil)` and hands nothing to
the transport, from the threshold on it hands exactly one request to the transport (the
session and the HTTP client are set, the conversation holds `numMessagesBeforeAd >= 0`
messages and the request is built); so after a record made at the current count the first
`numMessagesBetweenAds - 1` calls make no fetch and the next one does.  Message counts are
Go `int`s: they lie below `2^63`. -/
theorem addMessage_between_ads_threshold {μ : Type} (c : AdCortexChatClient μ)
    (pre : List adCortexShownAd) (s : adCortexShownAd) (hlog : c.shownAds = pre ++ [s])
    (hM0 : 0 ≤ s.messageIndex) (hM : s.messageIndex ≤ len c.messages) :
    (∀ (role : AdCortexRole) (content : GoString),
      len c.messages + 1 < 9223372036854775808 →
      ((c.appendMessage role content).adCortexShouldShowAd = true
        ↔ c.numMessagesBetweenAds ≤ len c.messages + 1 - s.messageIndex)) ∧
    (∀ (role : AdCortexRole) (content : GoString) (env : FetchEnv),
      len c.messages + 1 < 9223372036854775808 →
      len c.messages + 1 - s.messageIndex < c.numMessagesBetweenAds →
      c.AdCortexAddMessage role content env
        = some ⟨c.appendMessage role content, none, none, []⟩) ∧
    (∀ (role : AdCortexRole) (content : GoString) (env : FetchEnv),
      len c.messages + 1 < 9223372036854775808 →
      c.numMessagesBetweenAds ≤ len c.messages + 1 - s.messageIndex →
      c.nonNil = true → 0 ≤ c.numMessagesBeforeAd →
      c.numMessagesBeforeAd ≤ len c.messages + 1 →
      env.marshalErr = none → env.newRequestErr = none →
      ∃ r, c.AdCortexAddMessage role content env = some r ∧ r.requests.length = 1) ∧
    (∀ (calls : List Call) (last : Call),
      len c.messages + (calls.length : Int) + 1 < 9223372036854775808 →
      s.messageIndex = len c.messages →
      (calls.length : Int) + 1 = c.numMessagesBetweenAds →
      c.nonNil = true → 0 ≤ c.numMessagesBeforeAd →
      c.numMessagesBeforeAd ≤ len c.messages →
      last.env.marshalErr = none → last.env.newRequestErr = none →
      ∃ c1 rs r, runCalls c (calls ++ [last]) = some (c1, rs ++ [r]) ∧
        rs.length = calls.length ∧
        (∀ x ∈ rs, x.ad = none ∧ x.err = none ∧ x.requests = []) ∧
        r.requests.length = 1) := by
  have single : ∀ (d : AdCortexChatClient μ) (t : adCortexShownAd) (role : AdCortexRole)
      (content : GoString) (env : FetchEnv), d.shownAds = pre ++ [t] →
      0 ≤ t.messageIndex → t.messageIndex ≤ len d.messages →
      len d.messages + 1 < 9223372036854775808 →
      d.numMessagesBetweenAds ≤ len d.messages + 1 - t.messageIndex →
      d.nonNil = true → 0 ≤ d.numMessagesBeforeAd →
      d.numMessagesBeforeAd ≤ len d.messages + 1 →
      env.marshalErr = none → env.newRequestErr = none →
      ∃ r, d.AdCortexAddMessage role content env = some r ∧ r.requests.length = 1 := by
    intro d t role content env hdlog ht0 htM hdlen hdue hdsi hd0 hdN hm hr
    rw [addMessage_of_due d role content env
      (by rw [shouldShowAd_append_last d pre t role content hdlog ht0 htM hdlen]
          exact decide_eq_true hdue)]
    exact fetchAd_sends _ env (by rw [appendMessage_numMessagesBeforeAd]; exact hd0)
      (by rw [len_appendMessage, appendMessage_numMessagesBeforeAd]; exact hdN) hdsi hm hr
  refine ⟨?_, ?_, ?_, ?_⟩
  · intro role content hlen
    rw [shouldShowAd_append_last c pre s role content hlog hM0 hM hlen]
    simp only [decide_eq_true_eq]
  · intro role content env hlen hlt
    apply addMessage_of_not_due
    rw [shouldShowAd_append_last c pre s role content hlog hM0 hM hlen]
    simp only [decide_eq_false_iff_not, not_le]
    exact hlt
  · intro role content env hlen hdue hsi h0 hN hm hr
    exact single c s role content env hlog hM0 hM hlen hdue hsi h0 hN hm hr
  · intro calls last hlen hMeq hB hsi h0 hN hm hr
    obtain ⟨c1, rs, hrun, hl, hall, hlog1, hsi1, hN1, hB1, hlen1⟩ :=
      runCalls_below_between calls c pre s hlog hM0 hM (by omega) (by omega)
    obtain ⟨r, hr1, hr2⟩ := single c1 s last.role last.content last.env
      (by rw [hlog1]; exact hlog) hM0 (by omega) (by omega) (by omega)
      (by rw [hsi1]; exact hsi) (by omega) (by omega) hm hr
    refine ⟨r.client, rs, r, ?_, hl, hall, hr2⟩
    rw [runCalls_append, hrun]
    simp only [runCalls_cons, hr1, runCalls]

/-- The fourth and fifth calls of the test as an instance of C2. -/
theorem addMessage_between_ads_threshold_witness :
    sampleChatShown.shownAds = [] ++ [⟨sampleAd, 3⟩] ∧ (0 : Int) ≤ 3 ∧
    (3 : Int) ≤ len sampleChatShown.messages ∧
    ∃ c1 rs r,
      runCalls sampleChatShown
          ([sampleCall AdCortexRoleAI "I am just a bot, but good!"]
            ++ [sampleCall AdCortexRoleUser "Great!"])
        = some (c1, rs ++ [r]) ∧
      rs.length = 1 ∧ (∀ x ∈ rs, x.ad = none ∧ x.err = none ∧ x.requests = []) ∧
      r.requests.length = 1 :=
  ⟨rfl, by decide, by decide,
    (addMessage_between_ads_threshold sampleChatShown [] ⟨sampleAd, 3⟩ rfl (by decide)
      (by decide)).2.2.2
      [sampleCall AdCortexRoleAI "I am just a bot, but good!"]
      (sampleCall AdCortexRoleUser "Great!") (by decide) (by decide) (by decide)
      rfl (by decide) (by decide) rfl rfl⟩

theorem returnsAd_iff (env : FetchEnv) :
    env.returnsAd = true ↔
      env.marshalErr = none ∧ env.newRequestErr = none ∧
        ∃ resp ad ads, env.doResult = .ok resp ∧ resp.StatusCode < 300 ∧
          resp.Decoded = .ok (ad :: ads) := by
  unfold FetchEnv.returnsAd
  rcases env with ⟨m, n, d⟩
  cases m <;> cases n <;> cases d with
  | error e => simp
  | ok resp =>
    rcases resp with ⟨st, b, dec, rest⟩
    cases dec with
    | error e => simp
    | ok ads => cases ads <;> simp

/-- A fetch that gets an ad from the service: the ad becomes `latestAd`, a record with the
current message count is appended to the log, and the ad is returned. -/
theorem fetchAd_of_returnsAd {μ : Type} (c : AdCortexChatClient μ) (env : FetchEnv)
    (h0 : 0 ≤ c.numMessagesBeforeAd) (hN : c.numMessagesBeforeAd ≤ len c.messages)
    (hp : c.nonNil = true) (henv : env.returnsAd = true) :
    ∃ ad req, c.adCortexFetchAd env
      = some ⟨{ c with
                latestAd := some ad
                shownAds := c.shownAds ++ [⟨ad, len c.messages⟩] },
              some ad, none, [req]⟩ := by
  obtain ⟨hm, hr, resp, ad, ads, hdo, hst, hdec⟩ := (returnsAd_iff env).mp henv
  have hlen := len_nonneg c.messages
  have hw := wrapInt64_le_of_nonneg (len c.messages - c.numMessagesBeforeAd) (by omega)
  obtain ⟨si, hc, hsi, hhc⟩ := (chat_nonNil_iff c).mp hp
  have hg : ¬ len c.messages < c.numMessagesBeforeAd := by omega
  have hst2 : ¬ resp.StatusCode ≥ 300 := by omega
  unfold AdCortexChatClient.adCortexFetchAd
  simp only [hg, if_false, hsi, hhc, hm, hr, hdo, hst2, hdec]
  split_ifs with h1 h2 h2
  · omega
  · exact ⟨ad, _, rfl⟩
  · omega
  · exact ⟨ad, _, rfl⟩

theorem schedule_arith (d b : Nat) (hb : 1 ≤ b) :
    (b ≤ d % b + 1 ↔ b ∣ d + 1) ∧ (d + 1) / b = d / b + if b ∣ d + 1 then 1 else 0 := by
  refine ⟨?_, Nat.succ_div d b⟩
  have hr : d % b < b := Nat.mod_lt d (by omega)
  rw [Nat.dvd_iff_mod_eq_zero, Nat.add_mod]
  constructor
  · intro h
    have : d % b + 1 = b := by omega
    have h1 : 1 % b = 1 ∨ b = 1 := by
      rcases Nat.lt_or_ge 1 b with h2 | h2
      · exact Or.inl (Nat.mod_eq_of_lt h2)
      · exact Or.inr (by omega)
    rcases h1 with h1 | h1
    · rw [h1, this, Nat.mod_self]
    · subst h1; simp [Nat.mod_one]
  · intro h
    by_contra hlt
    have h2 : d % b + 1 < b := by omega
    have h3 : 1 < b := by omega
    rw [Nat.mod_eq_of_lt h3, Nat.mod_eq_of_lt h2] at h
    omega

/-- One call of a run in which the service always returns an ad, on a client that holds `k`
messages and whose log is as the schedule `n, n + b, n + 2 b, ...` leaves it. -/
theorem addMessage_schedule_step {μ : Type} (c : AdCortexChatClient μ) (n b k : Nat)
    (role : AdCortexRole) (content : GoString) (env : FetchEnv)
    (hn : 1 ≤ n) (hb : 1 ≤ b) (hN : c.numMessagesBeforeAd = (n : Int))
    (hB : c.numMessagesBetweenAds = (b : Int)) (hsi : c.nonNil = true)
    (hk : c.messages.length = k) (hbound : (k : Int) + 1 < 9223372036854775808)
    (h1 : k < n → c.shownAds = [])
    (h2 : n ≤ k → ∃ pre s, c.shownAds = pre ++ [s] ∧
      s.messageIndex = ((n + (k - n) / b * b : Nat) : Int))
    (henv : env.returnsAd = true) :
    ∃ r, c.AdCortexAddMessage role content env = some r ∧ r.err = none ∧
      (r.ad ≠ none ↔ (n ≤ k + 1 ∧ b ∣ (k + 1 - n))) ∧
      r.requests.length = (if n ≤ k + 1 ∧ b ∣ (k + 1 - n) then 1 else 0) ∧
      r.client.numMessagesBeforeAd = (n : Int) ∧
      r.client.numMessagesBetweenAds = (b : Int) ∧ r.client.nonNil = true ∧
      r.client.messages.length = k + 1 ∧
      (k + 1 < n → r.client.shownAds = []) ∧
      (n ≤ k + 1 → ∃ pre s, r.client.shownAds = pre ++ [s] ∧
        s.messageIndex = ((n + (k + 1 - n) / b * b : Nat) : Int)) := by
  have hlen : len c.messages = (k : Int) := by simp [len, hk]
  have hlenA : len (c.appendMessage role content).messages = (k : Int) + 1 := by
    rw [len_appendMessage, hlen]
  have hfetch : n ≤ k + 1 → ∃ ad req, (c.appendMessage role content).adCortexFetchAd env
      = some ⟨{ c.appendMessage role content with
                latestAd := some ad
                shownAds := c.shownAds ++ [⟨ad, (k : Int) + 1⟩] },
              some ad, none, [req]⟩ := by
    intro hge
    obtain ⟨ad, req, h⟩ := fetchAd_of_returnsAd (c.appendMessage role content) env
      (by rw [appendMessage_numMessagesBeforeAd, hN]; omega)
      (by rw [appendMessage_numMessagesBeforeAd, hN, hlenA]; omega) hsi henv
    rw [hlenA] at h
    exact ⟨ad, req, h⟩
  rcases Nat.lt_or_ge (k + 1) n with hA | hA
  · -- below the first threshold
    have hlog := h1 (by omega)
    refine ⟨_, addMessage_below_first c role content env hlog (by rw [hlen, hN]; omega),
      rfl, ?_, ?_, hN, hB, hsi, by simp [hk], fun _ => hlog, fun h => absurd h (by omega)⟩
    · simp only [ne_eq, not_true_eq_false, false_iff, not_and]
      intro h; omega
    · have : ¬ (n ≤ k + 1 ∧ b ∣ (k + 1 - n)) := fun h => by omega
      simp only [this, if_false, List.length_nil]
  · obtain ⟨ad, req, hfetch⟩ := hfetch hA
    rcases Nat.lt_or_ge k n with hC | hC
    · -- the first ad, at message count n
      have hkn : k + 1 = n := by omega
      have hlog := h1 hC
      have hdue : (c.appendMessage role content).adCortexShouldShowAd = true := by
        rw [shouldShowAd_empty (c.appendMessage role content) hlog, hlenA,
          appendMessage_numMessagesBeforeAd, hN]
        exact decide_eq_true (by omega)
      have hcond : n ≤ k + 1 ∧ b ∣ (k + 1 - n) := ⟨by omega, by simp [hkn]⟩
      refine ⟨_, (addMessage_of_due c role content env hdue).trans hfetch, rfl, ?_, ?_,
        hN, hB, hsi, by simp [hk], fun h => absurd h (by omega), fun _ => ?_⟩
      · simp only [ne_eq, reduceCtorEq, not_false_eq_true, true_iff]
        exact hcond
      · simp only [hcond, and_self, if_true, List.length_singleton]
      · refine ⟨c.shownAds, ⟨ad, (k : Int) + 1⟩, rfl, ?_⟩
        simp only [hkn, Nat.sub_self, Nat.zero_div, Nat.zero_mul, Nat.add_zero]
        omega
    · -- a later call: the last record is at n + ((k - n) / b) * b
      obtain ⟨pre, s, hlog, hs⟩ := h2 hC
      have hdm : (k - n) / b * b + (k - n) % b = k - n := by
        rw [Nat.mul_comm]; exact Nat.div_add_mod (k - n) b
      have harith := schedule_arith (k - n) b hb
      have hkn : k + 1 - n = (k - n) + 1 := by omega
      have hM0 : 0 ≤ s.messageIndex := by rw [hs]; omega
      have hM : s.messageIndex ≤ len c.messages := by rw [hs, hlen]; omega
      have hshould := shouldShowAd_append_last c pre s role content hlog hM0 hM
        (by rw [hlen]; exact hbound)
      have hgap : len c.messages + 1 - s.messageIndex = (((k - n) % b + 1 : Nat) : Int) := by
        rw [hs, hlen]; omega
      rw [hgap, hB] at hshould
      by_cases hd : b ∣ (k - n) + 1
      · have hdue : (c.appendMessage role content).adCortexShouldShowAd = true := by
          rw [hshould]
          exact decide_eq_true (by exact_mod_cast harith.1.mpr hd)
        have hcond : n ≤ k + 1 ∧ b ∣ (k + 1 - n) := ⟨by omega, by rw [hkn]; exact hd⟩
        refine ⟨_, (addMessage_of_due c role content env hdue).trans hfetch, rfl, ?_, ?_,
          hN, hB, hsi, by simp [hk], fun h => absurd h (by omega), fun _ => ?_⟩
        · simp only [ne_eq, reduceCtorEq, not_false_eq_true, true_iff]
          exact hcond
        · simp only [hcond, and_self, if_true, List.length_singleton]
        · refine ⟨c.shownAds, ⟨ad, (k : Int) + 1⟩, rfl, ?_⟩
          rw [hkn, Nat.div_mul_cancel hd]
          simp only
          omega
      · have hnd : (c.appendMessage role content).adCortexShouldShowAd = false := by
          rw [hshould]
          exact decide_eq_false (by
            intro h
            exact hd (harith.1.mp (by exact_mod_cast h)))
        have hcond : ¬ (n ≤ k + 1 ∧ b ∣ (k + 1 - n)) := fun h => hd (by rw [← hkn]; exact h.2)
        refine ⟨_, addMessage_of_not_due c role content env hnd, rfl, ?_, ?_,
          hN, hB, hsi, by simp [hk], fun h => absurd h (by omega), fun _ => ?_⟩
        · simp only [ne_eq, not_true_eq_false, false_iff]
          exact hcond
        · simp only [hcond, if_false, List.length_nil]
        · refine ⟨pre, s, hlog, ?_⟩
          rw [hs, hkn, harith.2]
          simp only [hd, if_false, Nat.add_zero]


/-- The number of fetches the schedule `n, n + b, n + 2 b, ...` places within the first `k`
messages, step by step. -/
theorem schedule_count_step (n b k : Nat) (hb : 1 ≤ b) :
    (if k < n then 0 else 1 + (k - n) / b) + (if n ≤ k + 1 ∧ b ∣ (k + 1 - n) then 1 else 0)
      = if k + 1 < n then 0 else 1 + (k + 1 - n) / b := by
  rcases Nat.lt_or_ge (k + 1) n with hA | hA
  · have h1 : k < n := by omega
    have h2 : ¬ (n ≤ k + 1 ∧ b ∣ (k + 1 - n)) := fun h => by omega
    simp only [h1, hA, h2, if_true, if_false]
  · rcases Nat.lt_or_ge k n with hC | hC
    · have hkn : k + 1 - n = 0 := by omega
      have h2 : n ≤ k + 1 ∧ b ∣ (k + 1 - n) := ⟨hA, by simp [hkn]⟩
      have h3 : ¬ k + 1 < n := by omega
      rw [if_pos hC, if_pos h2, if_neg h3, hkn, Nat.zero_div]
    · have hkn : k + 1 - n = (k - n) + 1 := by omega
      have h1 : ¬ k < n := by omega
      have h3 : ¬ k + 1 < n := by omega
      have harith := (schedule_arith (k - n) b hb).2
      simp only [h1, h3, if_false, hkn, harith, hA, true_and]
      omega

/-- A run in which the service always returns an ad follows the schedule
`n, n + b, n + 2 b, ...`, from a client that holds `k` messages and whose log is as the
schedule leaves it. -/
theorem runCalls_schedule {μ : Type} (calls : List Call) (c : AdCortexChatClient μ)
    (n b k : Nat) (hn : 1 ≤ n) (hb : 1 ≤ b) (hN : c.numMessagesBeforeAd = (n : Int))
    (hB : c.numMessagesBetweenAds = (b : Int)) (hsi : c.nonNil = true)
    (hk : c.messages.length = k)
    (hbound : (k : Int) + (calls.length : Int) < 9223372036854775808)
    (h1 : k < n → c.shownAds = [])
    (h2 : n ≤ k → ∃ pre s, c.shownAds = pre ++ [s] ∧
      s.messageIndex = ((n + (k - n) / b * b : Nat) : Int))
    (henv : ∀ x ∈ calls, x.env.returnsAd = true) :
    ∃ c1 rs, runCalls c calls = some (c1, rs) ∧ rs.length = calls.length ∧
      (∀ (i : Nat) (h : i < rs.length),
        (rs.get ⟨i, h⟩).err = none ∧
        ((rs.get ⟨i, h⟩).ad ≠ none ↔ (n ≤ k + i + 1 ∧ b ∣ (k + i + 1 - n))) ∧
        ((rs.get ⟨i, h⟩).requests.length
          = if n ≤ k + i + 1 ∧ b ∣ (k + i + 1 - n) then 1 else 0)) ∧
      (if k < n then 0 else 1 + (k - n) / b) + fetchCount rs
        = (if k + calls.length < n then 0 else 1 + (k + calls.length - n) / b) := by
  induction calls generalizing c k with
  | nil =>
    refine ⟨c, [], rfl, rfl, ?_, ?_⟩
    · intro i h; exact absurd h (by simp)
    · simp [fetchCount]
  | cons x xs ih =>
    simp only [List.length_cons, Nat.cast_add, Nat.cast_one] at hbound
    obtain ⟨r, hr, herr, had, hreq, hN1, hB1, hsi1, hk1, h11, h21⟩ :=
      addMessage_schedule_step c n b k x.role x.content x.env hn hb hN hB hsi hk
        (by omega) h1 h2 (henv x (List.mem_cons_self x xs))
    obtain ⟨c1, rs, hrun, hl, hall, hcount⟩ :=
      ih r.client (k + 1) hN1 hB1 hsi1 hk1 (by push_cast; omega) h11 h21
        (fun y hy => henv y (List.mem_cons_of_mem x hy))
    refine ⟨c1, r :: rs, ?_, by simp [hl], ?_, ?_⟩
    · rw [runCalls_cons, hr]; simp only [hrun]
    · intro i h
      cases i with
      | zero => exact ⟨herr, had, hreq⟩
      | succ j =>
        have hj : j < rs.length := by simpa using h
        have := hall j hj
        have e : k + 1 + j + 1 = k + (j + 1) + 1 := by omega
        simpa only [List.get_eq_getElem, List.getElem_cons_succ, e] using this
    · have hstep := schedule_count_step n b k hb
      have e : k + 1 + xs.length = k + (xs.length + 1) := by omega
      rw [e] at hcount
      simp only [List.length_cons]
      have hfc : fetchCount (r :: rs) = r.requests.length + fetchCount rs := by
        simp [fetchCount]
      rw [hfc, hreq, ← hcount, ← hstep]
      omega

/-- What `NewAdCortexChatClient` returns when it returns a client. -/
theorem newChatClient_some {μ : Type} (sessionInfo : Option (AdCortexSessionInfo μ))
    (contextTemplate apiKey baseURL : GoString) (httpClient : Option HttpClient)
    (N B : Int) (c : AdCortexChatClient μ) (e : Option GoString)
    (h : NewAdCortexChatClient sessionInfo contextTemplate apiKey baseURL httpClient N B
      = (some c, e)) :
    sessionInfo ≠ none ∧ apiKey ≠ [] ∧ e = none ∧
      c = { sessionInfo := sessionInfo
            contextTemplate := contextTemplate
            apiKey := apiKey
            httpClient :=
              if httpClient.isNone then some HttpClient.DefaultClient else httpClient
            numMessagesBeforeAd := N
            numMessagesBetweenAds := B
            baseURL := if baseURL = [] then DefaultAdCortexBaseURL else baseURL
            messages := []
            latestAd := none
            shownAds := [] } := by
  unfold NewAdCortexChatClient at h
  by_cases h1 : sessionInfo.isNone = true
  · rw [if_pos h1] at h; simp at h
  · by_cases h2 : apiKey = []
    · rw [if_neg h1, if_pos h2] at h; simp at h
    · rw [if_neg h1, if_neg h2] at h
      simp only [Prod.mk.injEq, Option.some.injEq] at h
      refine ⟨?_, h2, h.2.symm, h.1.symm⟩
      intro hs; rw [hs] at h1; simp at h1

/-- C3. On a client just returned by `NewAdCortexChatClient` with
`numMessagesBeforeAd = n >= 1` and `numMessagesBetweenAds = b >= 1`, when the service
returns an ad on every request, the `k`-th call of `AdCortexAddMessage` returns an ad
(and hands one request to the transport) exactly when `k >= n` and `b` divides `k - n`;
no call returns an error; the number of requests after `k >= n` calls is
`1 + (k - n) / b`, and `0` after fewer than `n` calls. -/
theorem fetch_schedule {μ : Type} (sessionInfo : Option (AdCortexSessionInfo μ))
    (contextTemplate apiKey baseURL : GoString) (httpClient : Option HttpClient)
    (n b : Nat) (c : AdCortexChatClient μ) (calls : List Call)
    (hn : 1 ≤ n) (hb : 1 ≤ b)
    (hc : NewAdCortexChatClient sessionInfo contextTemplate apiKey baseURL httpClient
      (n : Int) (b : Int) = (some c, none))
    (hbound : (calls.length : Int) < 9223372036854775808)
    (henv : ∀ x ∈ calls, x.env.returnsAd = true) :
    ∃ c1 rs, runCalls c calls = some (c1, rs) ∧ rs.length = calls.length ∧
      (∀ (i : Nat) (h : i < rs.length),
        (rs.get ⟨i, h⟩).err = none ∧
        ((rs.get ⟨i, h⟩).ad ≠ none ↔ (n ≤ i + 1 ∧ b ∣ (i + 1 - n))) ∧
        ((rs.get ⟨i, h⟩).requests.length = 1 ↔ (n ≤ i + 1 ∧ b ∣ (i + 1 - n))) ∧
        (rs.get ⟨i, h⟩).requests.length ≤ 1) ∧
      (n ≤ calls.length → fetchCount rs = 1 + (calls.length - n) / b) ∧
      (calls.length < n → fetchCount rs = 0) := by
  obtain ⟨hsi, -, -, hceq⟩ := newChatClient_some _ _ _ _ _ _ _ _ _ hc
  have hN : c.numMessagesBeforeAd = (n : Int) := by rw [hceq]
  have hB : c.numMessagesBetweenAds = (b : Int) := by rw [hceq]
  have hsi1 : c.nonNil = true := by
    rw [hceq]
    unfold AdCortexChatClient.nonNil
    cases sessionInfo with
    | none => exact absurd rfl hsi
    | some si => cases httpClient <;> rfl
  have hk : c.messages.length = 0 := by rw [hceq]; rfl
  have hlog : c.shownAds = [] := by rw [hceq]
  obtain ⟨c1, rs, hrun, hl, hall, hcount⟩ :=
    runCalls_schedule calls c n b 0 hn hb hN hB hsi1 hk (by simpa using hbound)
      (fun _ => hlog) (fun h => absurd h (by omega)) henv
  have h0 : (0 : Nat) < n := by omega
  simp only [h0, if_true, Nat.zero_add] at hcount hall
  refine ⟨c1, rs, hrun, hl, ?_, ?_, ?_⟩
  · intro i h
    obtain ⟨h1, h2, h3⟩ := hall i h
    refine ⟨h1, h2, ?_, ?_⟩
    · rw [h3]; split_ifs with hcond <;> simp [hcond]
    · rw [h3]; split_ifs <;> simp
  · intro hge
    have : ¬ calls.length < n := by omega
    simpa only [this, if_false] using hcount
  · intro hlt
    simpa only [hlt, if_true] using hcount

/-- The five calls of the test as an instance of C3: no fetch, no fetch, fetch, no fetch,
fetch, two requests in all. -/
theorem fetch_schedule_witness :
    1 ≤ 3 ∧ 1 ≤ 2 ∧
    NewAdCortexChatClient (some sampleSession)
        (str "Check out this product: \x7bad_title\x7d - \x7blink\x7d") (str "TEST_API_KEY")
        (str "http://127.0.0.1:8080") none ((3 : Nat) : Int) ((2 : Nat) : Int)
      = (some (sampleChat 3 2), none) ∧
    (∀ x ∈ sampleCalls, x.env.returnsAd = true) ∧
    (∃ c1 rs, runCalls (sampleChat 3 2) sampleCalls = some (c1, rs) ∧
      rs.length = sampleCalls.length ∧
      (∀ (i : Nat) (h : i < rs.length),
        (rs.get ⟨i, h⟩).err = none ∧
        ((rs.get ⟨i, h⟩).ad ≠ none ↔ (3 ≤ i + 1 ∧ 2 ∣ (i + 1 - 3))) ∧
        ((rs.get ⟨i, h⟩).requests.length = 1 ↔ (3 ≤ i + 1 ∧ 2 ∣ (i + 1 - 3))) ∧
        (rs.get ⟨i, h⟩).requests.length ≤ 1) ∧
      (3 ≤ sampleCalls.length → fetchCount rs = 1 + (sampleCalls.length - 3) / 2) ∧
      (sampleCalls.length < 3 → fetchCount rs = 0)) ∧
    (runCalls (sampleChat 3 2) sampleCalls).map
        (fun p => p.2.map fun r => (r.ad.isSome, r.requests.length))
      = some [(false, 0), (false, 0), (true, 1), (false, 0), (true, 1)] :=
  ⟨by decide, by decide, rfl, by decide,
    fetch_schedule (some sampleSession)
      (str "Check out this product: \x7bad_title\x7d - \x7blink\x7d") (str "TEST_API_KEY")
      (str "http://127.0.0.1:8080") none 3 2 (sampleChat 3 2) sampleCalls (by decide)
      (by decide) rfl (by decide) (by decide),
    by decide⟩

/-- A fetch that gets no ad leaves the client as it is and returns no ad; it returns no error
when the service returns zero ads, and an error when the fetch fails. -/
theorem fetchAd_no_ad {μ : Type} (c : AdCortexChatClient μ) (env : FetchEnv)
    (r : ChatResult μ) (hr : c.adCortexFetchAd env = some r)
    (h : env.zeroAds = true ∨ env.failure = true) :
    r.client = c ∧ r.ad = none ∧ (env.zeroAds = true → r.err = none) ∧
      (env.failure = true → c.numMessagesBeforeAd ≤ len c.messages → r.err ≠ none) := by
  rcases env with ⟨m, n, d⟩
  unfold AdCortexChatClient.adCortexFetchAd at hr
  simp only [FetchEnv.zeroAds, FetchEnv.failure] at h ⊢
  by_cases hg : len c.messages < c.numMessagesBeforeAd
  · rw [if_pos hg] at hr
    cases hr
    exact ⟨rfl, rfl, fun _ => rfl, fun _ hN => absurd hg (by omega)⟩
  · rw [if_neg hg] at hr
    simp only at hr
    cases hsi : c.sessionInfo with
    | none => simp [hsi] at hr
    | some si =>
      simp only [hsi] at hr
      split_ifs at hr
      all_goals
        cases m with
        | some e => cases hr; simp
        | none =>
          cases n with
          | some e => cases hr; simp
          | none =>
            cases hhc : c.httpClient with
            | none => simp [hhc] at hr
            | some hc =>
              simp only [hhc] at hr
              cases d with
              | error e => cases hr; simp
              | ok resp =>
                rcases resp with ⟨st, body, dec, rest⟩
                simp only at hr
                by_cases hst : st ≥ 300
                · rw [if_pos hst] at hr; cases hr
                  have : ¬ st < 300 := by omega
                  simp [hst, this]
                · rw [if_neg hst] at hr
                  cases dec with
                  | error e => cases hr; simp
                  | ok ads =>
                    cases ads with
                    | nil => cases hr; simp [hst]
                    | cons a t => simp [hst] at h


/-- A fetch on a client whose session and HTTP client are set and whose
`numMessagesBeforeAd` is not negative does not panic. -/
theorem fetchAd_returns {μ : Type} (c : AdCortexChatClient μ) (env : FetchEnv)
    (hp : c.nonNil = true) (h0 : 0 ≤ c.numMessagesBeforeAd) :
    ∃ r, c.adCortexFetchAd env = some r := by
  rcases env with ⟨m, n, d⟩
  have hlen := len_nonneg c.messages
  obtain ⟨si, hc, hsi, hhc⟩ := (chat_nonNil_iff c).mp hp
  unfold AdCortexChatClient.adCortexFetchAd
  by_cases hg : len c.messages < c.numMessagesBeforeAd
  · rw [if_pos hg]; exact ⟨_, rfl⟩
  · rw [if_neg hg]
    have hw := wrapInt64_le_of_nonneg (len c.messages - c.numMessagesBeforeAd) (by omega)
    simp only [hsi, hhc]
    split_ifs
    any_goals omega
    all_goals
      cases m with
      | some e => exact ⟨_, rfl⟩
      | none =>
        cases n with
        | some e => exact ⟨_, rfl⟩
        | none =>
          cases d with
          | error e => exact ⟨_, rfl⟩
          | ok resp =>
            simp only
            split_ifs
            · exact ⟨_, rfl⟩
            · cases resp.Decoded with
              | error e => exact ⟨_, rfl⟩
              | ok ads => cases ads <;> exact ⟨_, rfl⟩

/-- C4. A call of `AdCortexAddMessage` whose fetch does not yield an ad (the service
returns zero ads, or the fetch fails: the request cannot be built or sent, the status is
300 or more, or the body does not decode) changes nothing but the message sequence, so
`latestAd` and the shown-ad log are what they were, and returns no ad; it returns no
error in the zero-ads case, and an error in the failure cases when the fetch is made (the
call is due and the conversation holds `numMessagesBeforeAd` messages).  The call returns
on every client whose session and HTTP client are set and whose `numMessagesBeforeAd` is
not negative. -/
theorem addMessage_no_ad_frame {μ : Type} (c : AdCortexChatClient μ) (role : AdCortexRole)
    (content : GoString) (env : FetchEnv)
    (h : env.zeroAds = true ∨ env.failure = true) :
    (∀ r, c.AdCortexAddMessage role content env = some r →
      r.client = c.appendMessage role content ∧
      r.client.latestAd = c.latestAd ∧ r.client.shownAds = c.shownAds ∧ r.ad = none ∧
      (env.zeroAds = true → r.err = none) ∧
      (env.failure = true → (c.appendMessage role content).adCortexShouldShowAd = true →
        c.numMessagesBeforeAd ≤ len c.messages + 1 → r.err ≠ none)) ∧
    (c.nonNil = true → 0 ≤ c.numMessagesBeforeAd →
      ∃ r, c.AdCortexAddMessage role content env = some r) := by
  constructor
  · intro r hr
    cases hdue : (c.appendMessage role content).adCortexShouldShowAd with
    | false =>
      rw [addMessage_of_not_due c role content env hdue] at hr
      cases hr
      exact ⟨rfl, rfl, rfl, rfl, fun _ => rfl, fun _ hd => by simp at hd⟩
    | true =>
      rw [addMessage_of_due c role content env hdue] at hr
      obtain ⟨h1, h2, h3, h4⟩ := fetchAd_no_ad _ env r hr h
      refine ⟨h1, by rw [h1]; rfl, by rw [h1]; rfl, h2, h3, fun hf _ hN => h4 hf ?_⟩
      rw [len_appendMessage, appendMessage_numMessagesBeforeAd]
      exact hN
  · intro hsi h0
    cases hdue : (c.appendMessage role content).adCortexShouldShowAd with
    | false => exact ⟨_, addMessage_of_not_due c role content env hdue⟩
    | true =>
      rw [addMessage_of_due c role content env hdue]
      exact fetchAd_returns _ env hsi h0

/-- A due call answered with status 500 as an instance of C4. -/
theorem addMessage_no_ad_frame_witness :
    (sampleFailEnv.zeroAds = true ∨ sampleFailEnv.failure = true) ∧
    ∃ r, (sampleChat 1 1).AdCortexAddMessage AdCortexRoleUser (str "Hello") sampleFailEnv
        = some r ∧
      r.client.latestAd = (sampleChat 1 1).latestAd ∧
      r.client.shownAds = (sampleChat 1 1).shownAds ∧ r.ad = none ∧ r.err ≠ none :=
  ⟨by decide,
    match (addMessage_no_ad_frame (sampleChat 1 1) AdCortexRoleUser (str "Hello")
      sampleFailEnv (by decide)).2 rfl (by decide) with
    | ⟨r, hr⟩ =>
      have hf := (addMessage_no_ad_frame (sampleChat 1 1) AdCortexRoleUser (str "Hello")
        sampleFailEnv (by decide)).1 r hr
      ⟨r, hr, hf.2.1, hf.2.2.1, hf.2.2.2.1,
        hf.2.2.2.2.2 (by decide) (by decide) (by decide)⟩⟩

/-- C5. For a response received by `AdCortexClient.AdCortexFetchAd` (the session and the
HTTP client are set, the request was built and `httpClient.Do` returned the response): a
status of 300 or more gives no ad and an error whose text contains the decimal status code
and the raw body; otherwise a body that does not decode gives no ad and an error;
otherwise an empty ads list gives `(nil, nil)`; otherwise the first element of the list is
returned with no error, whatever the rest of the list is. -/
theorem client_fetchAd_response {μ : Type} (c : AdCortexClient μ)
    (messages : List AdCortexMessage) (env : FetchEnv) (resp : HttpResponse)
    (hp : c.nonNil = true) (hm : env.marshalErr = none)
    (hr : env.newRequestErr = none) (hdo : env.doResult = .ok resp) :
    ∃ r, c.AdCortexFetchAd messages env = some r ∧ r.requests.length = 1 ∧
      (resp.StatusCode ≥ 300 →
        r.ad = none ∧
        ∃ text, r.err = some text ∧ List.IsInfix (fmtInt resp.StatusCode) text ∧
          List.IsInfix resp.Body text) ∧
      (resp.StatusCode < 300 → ∀ e, resp.Decoded = .error e → r.ad = none ∧ r.err ≠ none) ∧
      (resp.StatusCode < 300 → resp.Decoded = .ok [] → r.ad = none ∧ r.err = none) ∧
      (resp.StatusCode < 300 → ∀ ad ads, resp.Decoded = .ok (ad :: ads) →
        r.ad = some ad ∧ r.err = none) := by
  obtain ⟨si, hc, hsi, hhc⟩ : ∃ si hc, c.sessionInfo = some si ∧ c.httpClient = some hc := by
    unfold AdCortexClient.nonNil at hp
    cases h1 : c.sessionInfo <;> cases h2 : c.httpClient <;> simp [h1, h2] at hp ⊢
  unfold AdCortexClient.AdCortexFetchAd
  simp only [hsi, hhc, hm, hr, hdo]
  by_cases hst : resp.StatusCode ≥ 300
  · rw [if_pos hst]
    refine ⟨_, rfl, rfl, fun _ => ⟨rfl, _, rfl, ?_, ?_⟩, fun h => absurd hst (by omega),
      fun h => absurd hst (by omega), fun h => absurd hst (by omega)⟩
    · exact ⟨str "received non-OK status ", str ": " ++ resp.Body, by simp⟩
    · exact ⟨str "received non-OK status " ++ fmtInt resp.StatusCode ++ str ": ", [],
        by simp⟩
  · rw [if_neg hst]
    cases hdec : resp.Decoded with
    | error e =>
      exact ⟨_, rfl, rfl, fun h => absurd h hst, fun _ e1 _ => ⟨rfl, by simp⟩,
        fun _ h => by simp at h, fun _ ad ads h => by simp at h⟩
    | ok ads =>
      cases ads with
      | nil =>
        exact ⟨_, rfl, rfl, fun h => absurd h hst, fun _ e1 h => by simp at h,
          fun _ _ => ⟨rfl, rfl⟩, fun _ ad ads h => by simp at h⟩
      | cons a t =>
        refine ⟨_, rfl, rfl, fun h => absurd h hst, fun _ e1 h => by simp at h,
          fun _ h => by simp at h, fun _ ad ads h => ?_⟩
        simp only [Except.ok.injEq, List.cons.injEq] at h
        exact ⟨by rw [h.1], rfl⟩

/-- A response with status 500 and body `boom` as an instance of C5. -/
theorem client_fetchAd_response_witness :
    (sampleClient (str "Buy now")).nonNil = true ∧ sampleFailEnv.marshalErr = none ∧
    sampleFailEnv.newRequestErr = none ∧
    ∃ r, (sampleClient (str "Buy now")).AdCortexFetchAd
          [⟨AdCortexRoleUser, str "Hello!"⟩] sampleFailEnv = some r ∧
      r.ad = none ∧
      ∃ text, r.err = some text ∧ List.IsInfix (fmtInt 500) text ∧
        List.IsInfix (str "boom") text :=
  ⟨rfl, rfl, rfl,
    match client_fetchAd_response (sampleClient (str "Buy now"))
      [⟨AdCortexRoleUser, str "Hello!"⟩] sampleFailEnv
      { StatusCode := 500, Body := str "boom", Decoded := .error (str "EOF"), Rest := [] }
      rfl rfl rfl rfl with
    | ⟨r, hr, _, h300, _⟩ => ⟨r, hr, (h300 (by decide)).1, (h300 (by decide)).2⟩⟩

/-- C6. `NewAdCortexUserInfo` returns an error exactly when the location is not one of
`US`, `GB`, `CA`, `FR`, `DE`, `IN` or the language is not `en`, and then the profile is
`nil`; otherwise it returns no error and the profile made of the six arguments.  Location
`XX` with language `en` fails and location `US` with language `en` succeeds. -/
theorem newUserInfo_validation (userID : GoString) (age : Int) (gender : AdCortexGender)
    (location language : GoString) (interests : List AdCortexInterest) :
    ((NewAdCortexUserInfo userID age gender location language interests).2 ≠ none
      ↔ (location ∉ [str "US", str "GB", str "CA", str "FR", str "DE", str "IN"]
          ∨ language ≠ str "en")) ∧
    ((NewAdCortexUserInfo userID age gender location language interests).2 ≠ none →
      (NewAdCortexUserInfo userID age gender location language interests).1 = none) ∧
    ((NewAdCortexUserInfo userID age gender location language interests).2 = none →
      (NewAdCortexUserInfo userID age gender location language interests).1
        = some ⟨userID, age, gender, location, language, interests⟩) ∧
    (NewAdCortexUserInfo userID age gender (str "XX") (str "en") interests).1 = none ∧
    (NewAdCortexUserInfo userID age gender (str "XX") (str "en") interests).2 ≠ none ∧
    NewAdCortexUserInfo userID age gender (str "US") (str "en") interests
      = (some ⟨userID, age, gender, str "US", str "en", interests⟩, none) := by
  have hXX : adCortexValidateLocation (str "XX")
      = some (str "XX" ++ str " is not a valid or supported country code in this demo") := by
    decide
  have hUS : adCortexValidateLocation (str "US") = none := by decide
  have hen : adCortexValidateLanguage (str "en") = none := by decide
  refine ⟨?_, ?_, ?_, ?_, ?_, ?_⟩
  · unfold NewAdCortexUserInfo adCortexValidateLocation adCortexValidateLanguage
    by_cases h1 : location ∈ validCodes
    · by_cases h2 : language = str "en"
      · have h1b : location ∈ [str "US", str "GB", str "CA", str "FR", str "DE", str "IN"] := h1
        simp [h1, h2, h1b]
      · simp [h1, h2]
    · have h1b : location ∉ [str "US", str "GB", str "CA", str "FR", str "DE", str "IN"] := h1
      simp [h1, h1b]
  · unfold NewAdCortexUserInfo adCortexValidateLocation adCortexValidateLanguage
    by_cases h1 : location ∈ validCodes
    · by_cases h2 : language = str "en"
      · simp [h1, h2]
      · simp [h1, h2]
    · simp [h1]
  · unfold NewAdCortexUserInfo adCortexValidateLocation adCortexValidateLanguage
    by_cases h1 : location ∈ validCodes
    · by_cases h2 : language = str "en"
      · simp [h1, h2]
      · simp [h1, h2]
    · simp [h1]
  · simp only [NewAdCortexUserInfo, hXX]
  · simp only [NewAdCortexUserInfo, hXX]; simp
  · simp only [NewAdCortexUserInfo, hUS, hen]

/-- The two constructions of `TestNewAdCortexUserInfo` as an instance of C6. -/
theorem newUserInfo_validation_witness :
    (NewAdCortexUserInfo (str "user123") 30 AdCortexGenderMale (str "XX") (str "en") []).1
      = none ∧
    (NewAdCortexUserInfo (str "user123") 30 AdCortexGenderMale (str "XX") (str "en") []).2
      ≠ none ∧
    NewAdCortexUserInfo (str "user123") 30 AdCortexGenderMale (str "US") (str "en") []
      = (some ⟨str "user123", 30, AdCortexGenderMale, str "US", str "en", []⟩, none) :=
  (newUserInfo_validation (str "user123") 30 AdCortexGenderMale (str "US") (str "en")
    []).2.2.2

/-- C7. `NewAdCortexSessionInfo` returns an error exactly when the session id is empty or
the user info is `nil`, and then the session is `nil`; otherwise it returns no error and
the session made of the five arguments. -/
theorem newSessionInfo_validation {μ : Type} (sessionID characterName : GoString)
    (characterMetadata : μ) (userInfo : Option AdCortexUserInfo)
    (platform : AdCortexPlatform) :
    ((NewAdCortexSessionInfo sessionID characterName characterMetadata userInfo platform).2
        ≠ none
      ↔ (sessionID = [] ∨ userInfo = none)) ∧
    ((NewAdCortexSessionInfo sessionID characterName characterMetadata userInfo platform).2
        ≠ none →
      (NewAdCortexSessionInfo sessionID characterName characterMetadata userInfo platform).1
        = none) ∧
    ((NewAdCortexSessionInfo sessionID characterName characterMetadata userInfo platform).2
        = none →
      (NewAdCortexSessionInfo sessionID characterName characterMetadata userInfo platform).1
        = some ⟨sessionID, characterName, characterMetadata, userInfo, platform⟩) := by
  unfold NewAdCortexSessionInfo
  by_cases h1 : sessionID = []
  · simp [h1]
  · cases userInfo with
    | none => simp [h1]
    | some u => simp [h1]

/-- The session of the test, and the same arguments with an empty session id, as
instances of C7. -/
theorem newSessionInfo_validation_witness :
    (NewAdCortexSessionInfo (str "session123") (str "MyCharacter") () (some sampleUser)
        ⟨str "iOS", str "16.0"⟩).1
      = some ⟨str "session123", str "MyCharacter", (), some sampleUser,
          ⟨str "iOS", str "16.0"⟩⟩ ∧
    (NewAdCortexSessionInfo [] (str "MyCharacter") () (some sampleUser)
        ⟨str "iOS", str "16.0"⟩).1 = none :=
  ⟨(newSessionInfo_validation (str "session123") (str "MyCharacter") () (some sampleUser)
      ⟨str "iOS", str "16.0"⟩).2.2 rfl,
    (newSessionInfo_validation [] (str "MyCharacter") () (some sampleUser)
      ⟨str "iOS", str "16.0"⟩).2.1
      ((newSessionInfo_validation [] (str "MyCharacter") () (some sampleUser)
        ⟨str "iOS", str "16.0"⟩).1.mpr (Or.inl rfl))⟩

/-- C8. `NewAdCortexClient` and `NewAdCortexChatClient` each return an error exactly when
the API key is empty or the session info is `nil`, and then the client is `nil`; otherwise
they return no error and a client whose endpoint is the supplied `baseURL` when it is not
empty and `DefaultAdCortexBaseURL` when it is, and the chat client has no messages, no
latest ad and an empty shown-ad log. -/
theorem newClients_validation {μ : Type} (sessionInfo : Option (AdCortexSessionInfo μ))
    (contextTemplate apiKey baseURL : GoString) (httpClient : Option HttpClient)
    (numMessagesBeforeAd numMessagesBetweenAds : Int) :
    ((NewAdCortexClient sessionInfo contextTemplate apiKey baseURL httpClient).2 ≠ none
      ↔ (apiKey = [] ∨ sessionInfo = none)) ∧
    ((NewAdCortexClient sessionInfo contextTemplate apiKey baseURL httpClient).2 ≠ none →
      (NewAdCortexClient sessionInfo contextTemplate apiKey baseURL httpClient).1 = none) ∧
    ((NewAdCortexClient sessionInfo contextTemplate apiKey baseURL httpClient).2 = none →
      ∃ c, (NewAdCortexClient sessionInfo contextTemplate apiKey baseURL httpClient).1
          = some c ∧
        c.baseURL = (if baseURL = [] then DefaultAdCortexBaseURL else baseURL) ∧
        c.sessionInfo = sessionInfo ∧ c.contextTemplate = contextTemplate ∧
        c.apiKey = apiKey ∧
        c.httpClient
          = (if httpClient = none then some HttpClient.DefaultClient else httpClient)) ∧
    ((NewAdCortexChatClient sessionInfo contextTemplate apiKey baseURL httpClient
          numMessagesBeforeAd numMessagesBetweenAds).2 ≠ none
      ↔ (apiKey = [] ∨ sessionInfo = none)) ∧
    ((NewAdCortexChatClient sessionInfo contextTemplate apiKey baseURL httpClient
          numMessagesBeforeAd numMessagesBetweenAds).2 ≠ none →
      (NewAdCortexChatClient sessionInfo contextTemplate apiKey baseURL httpClient
          numMessagesBeforeAd numMessagesBetweenAds).1 = none) ∧
    ((NewAdCortexChatClient sessionInfo contextTemplate apiKey baseURL httpClient
          numMessagesBeforeAd numMessagesBetweenAds).2 = none →
      ∃ c, (NewAdCortexChatClient sessionInfo contextTemplate apiKey baseURL httpClient
            numMessagesBeforeAd numMessagesBetweenAds).1 = some c ∧
        c.baseURL = (if baseURL = [] then DefaultAdCortexBaseURL else baseURL) ∧
        c.sessionInfo = sessionInfo ∧ c.contextTemplate = contextTemplate ∧
        c.apiKey = apiKey ∧
        c.httpClient
          = (if httpClient = none then some HttpClient.DefaultClient else httpClient) ∧
        c.numMessagesBeforeAd = numMessagesBeforeAd ∧
        c.numMessagesBetweenAds = numMessagesBetweenAds ∧
        c.messages = [] ∧ c.latestAd = none ∧ c.shownAds = []) := by
  unfold NewAdCortexClient NewAdCortexChatClient
  by_cases h1 : apiKey = []
  · cases sessionInfo <;> simp [h1]
  · cases sessionInfo with
    | none => simp [h1]
    | some si => cases httpClient <;> simp [h1]

/-- The chat client of the test built without a base URL, and the same arguments with an
empty API key, as instances of C8. -/
theorem newClients_validation_witness :
    (∃ c : AdCortexChatClient Unit,
      (NewAdCortexChatClient (some sampleSession) (str "Buy now") (str "TEST_API_KEY") []
          none 3 2).1 = some c ∧
        c.baseURL = DefaultAdCortexBaseURL ∧ c.messages = [] ∧ c.latestAd = none ∧
        c.shownAds = []) ∧
    (NewAdCortexChatClient (some sampleSession) (str "Buy now") [] [] none 3 2).1 = none :=
  ⟨match (newClients_validation (some sampleSession) (str "Buy now") (str "TEST_API_KEY")
      [] none 3 2).2.2.2.2.2 rfl with
    | ⟨c, hc, hurl, _, _, _, _, _, _, hmsgs, had, hlog⟩ => ⟨c, hc, hurl, hmsgs, had, hlog⟩,
    (newClients_validation (some sampleSession) (str "Buy now") [] [] none 3 2).2.2.2.2.1
      ((newClients_validation (some sampleSession) (str "Buy now") [] [] none
        3 2).2.2.2.1.mpr (Or.inl rfl))⟩

/-- A fetch that returns no ad leaves the client as it is. -/
theorem fetchAd_ad_none {μ : Type} (c : AdCortexChatClient μ) (env : FetchEnv)
    (r : ChatResult μ) (hr : c.adCortexFetchAd env = some r) (had : r.ad = none) :
    r.client = c := by
  rcases env with ⟨m, n, d⟩
  unfold AdCortexChatClient.adCortexFetchAd at hr
  by_cases hg : len c.messages < c.numMessagesBeforeAd
  · rw [if_pos hg] at hr; cases hr; rfl
  · rw [if_neg hg] at hr
    simp only at hr
    cases hsi : c.sessionInfo with
    | none => simp [hsi] at hr
    | some si =>
      simp only [hsi] at hr
      split_ifs at hr
      all_goals
        cases m with
        | some e => cases hr; rfl
        | none =>
          cases n with
          | some e => cases hr; rfl
          | none =>
            cases hhc : c.httpClient with
            | none => simp [hhc] at hr
            | some hc =>
              simp only [hhc] at hr
              cases d with
              | error e => cases hr; rfl
              | ok resp =>
                rcases resp with ⟨st, body, dec, rest⟩
                simp only at hr
                by_cases hst : st ≥ 300
                · rw [if_pos hst] at hr; cases hr; rfl
                · rw [if_neg hst] at hr
                  cases dec with
                  | error e => cases hr; rfl
                  | ok ads =>
                    cases ads with
                    | nil => cases hr; rfl
                    | cons a t => cases hr; simp at had

/-- A call that returns no ad leaves `latestAd` as it is. -/
theorem addMessage_ad_none_latestAd {μ : Type} (c : AdCortexChatClient μ)
    (role : AdCortexRole) (content : GoString) (env : FetchEnv) (r : ChatResult μ)
    (hr : c.AdCortexAddMessage role content env = some r) (had : r.ad = none) :
    r.client.latestAd = c.latestAd := by
  cases hdue : (c.appendMessage role content).adCortexShouldShowAd with
  | false =>
    rw [addMessage_of_not_due c role content env hdue] at hr
    cases hr; rfl
  | true =>
    rw [addMessage_of_due c role content env hdue] at hr
    rw [fetchAd_ad_none _ env r hr had]; rfl

/-- A run none of whose calls returns an ad leaves `latestAd` as it is. -/
theorem runCalls_ad_none_latestAd {μ : Type} (calls : List Call) (c c1 : AdCortexChatClient μ)
    (rs : List (ChatResult μ)) (hrun : runCalls c calls = some (c1, rs))
    (had : ∀ r ∈ rs, r.ad = none) : c1.latestAd = c.latestAd := by
  induction calls generalizing c rs with
  | nil =>
    simp only [runCalls, Option.some.injEq, Prod.mk.injEq] at hrun
    rw [hrun.1]
  | cons x xs ih =>
    rw [runCalls_cons] at hrun
    cases hx : c.AdCortexAddMessage x.role x.content x.env with
    | none => simp [hx] at hrun
    | some r =>
      simp only [hx] at hrun
      cases hxs : runCalls r.client xs with
      | none => simp [hxs] at hrun
      | some p =>
        obtain ⟨c2, rs2⟩ := p
        simp only [hxs, Option.some.injEq, Prod.mk.injEq] at hrun
        obtain ⟨h1, h2⟩ := hrun
        subst h1 h2
        rw [ih r.client rs2 hxs (fun y hy => had y (List.mem_cons_of_mem r hy)),
          addMessage_ad_none_latestAd c x.role x.content x.env r hx
            (had r (List.mem_cons_self r rs2))]

/-- C9. Rendering with an absent ad yields the empty string: `AdCortexGenerateContext(nil)`
is the empty string for every template, and `AdCortexCreateContext` is the empty string on
every chat client whose `latestAd` is `nil`, in particular after any run of calls on a
client just returned by `NewAdCortexChatClient` in which no call has returned an ad. -/
theorem render_absent_ad {μ : Type} :
    (∀ (fuel : Nat) (c : AdCortexClient μ), c.AdCortexGenerateContext fuel none = some []) ∧
    (∀ (fuel : Nat) (c : AdCortexChatClient μ), c.latestAd = none →
      c.AdCortexCreateContext fuel = some []) ∧
    (∀ (sessionInfo : Option (AdCortexSessionInfo μ))
      (contextTemplate apiKey baseURL : GoString) (httpClient : Option HttpClient)
      (N B : Int) (c c1 : AdCortexChatClient μ) (calls : List Call)
      (rs : List (ChatResult μ)) (fuel : Nat),
      NewAdCortexChatClient sessionInfo contextTemplate apiKey baseURL httpClient N B
        = (some c, none) →
      runCalls c calls = some (c1, rs) → (∀ r ∈ rs, r.ad = none) →
      c1.AdCortexCreateContext fuel = some []) := by
  have hcreate : ∀ (fuel : Nat) (c : AdCortexChatClient μ), c.latestAd = none →
      c.AdCortexCreateContext fuel = some [] := by
    intro fuel c h
    unfold AdCortexChatClient.AdCortexCreateContext
    rw [h]
  refine ⟨fun fuel c => rfl, hcreate, ?_⟩
  intro sessionInfo contextTemplate apiKey baseURL httpClient N B c c1 calls rs fuel hc hrun
    had
  obtain ⟨-, -, -, hceq⟩ := newChatClient_some _ _ _ _ _ _ _ _ _ hc
  apply hcreate
  rw [runCalls_ad_none_latestAd calls c c1 rs hrun had, hceq]

/-- The client of the test after its first two calls as an instance of C9. -/
theorem render_absent_ad_witness :
    ∃ c1 rs, runCalls (sampleChat 3 2) (sampleCalls.take 2) = some (c1, rs) ∧
      (∀ r ∈ rs, r.ad = none) ∧ c1.AdCortexCreateContext 5 = some [] :=
  ⟨_, _, rfl, by decide,
    render_absent_ad.2.2 (some sampleSession)
      (str "Check out this product: \x7bad_title\x7d - \x7blink\x7d") (str "TEST_API_KEY")
      (str "http://127.0.0.1:8080") none 3 2 (sampleChat 3 2) _ (sampleCalls.take 2) _ 5
      rfl rfl (by decide)⟩

/-- An occurrence found by the comparison of `findIndex` is an occurrence. -/
theorem infix_of_slice_eq (s sub : GoString) (i : Nat)
    (h : (s.drop i).take sub.length = sub) : List.IsInfix sub s := by
  refine ⟨s.take i, (s.drop i).drop sub.length, ?_⟩
  have h1 : s.take i ++ ((s.drop i).take sub.length ++ (s.drop i).drop sub.length) = s := by
    rw [List.take_append_drop, List.take_append_drop]
  rw [h] at h1
  rw [List.append_assoc]
  exact h1

theorem findIndexLoop_of_absent (s sub : GoString) (h : ¬ List.IsInfix sub s)
    (fuel i : Nat) : findIndexLoop s sub fuel i = -1 := by
  induction fuel generalizing i with
  | zero => rfl
  | succ fuel ih =>
    unfold findIndexLoop
    have hne : ¬ (s.drop i).take sub.length = sub := fun he => h (infix_of_slice_eq s sub i he)
    simp only [hne, if_false, ih, ite_self]

/-- When `sub` does not occur in `s`, `findIndex` returns `-1`. -/
theorem findIndex_of_absent (s sub : GoString) (h : ¬ List.IsInfix sub s) :
    findIndex s sub = -1 :=
  findIndexLoop_of_absent s sub h _ _

/-- When `old` does not occur in `s`, the loop of `adCortexReplaceAll` breaks at its first
iteration and `s` is returned. -/
theorem strReplace_of_absent (fuel : Nat) (s old new : GoString)
    (h : ¬ List.IsInfix old s) : adCortexStrReplace (fuel + 1) s old new = some s := by
  unfold adCortexStrReplace adCortexReplaceAll
  simp only [findIndex_of_absent s old h, if_true]

/-- C10. For a template in which none of the four tokens occurs and an ad that is not
`nil`, `AdCortexGenerateContext` returns the template unchanged (each of the four loops
breaks at its first iteration), and so does `AdCortexCreateContext` for the latest ad. -/
theorem render_without_tokens {μ : Type} (fuel : Nat) (template : GoString)
    (ad : AdCortexAd)
    (h1 : ¬ List.IsInfix (str "\x7bad_title\x7d") template)
    (h2 : ¬ List.IsInfix (str "\x7bad_description\x7d") template)
    (h3 : ¬ List.IsInfix (str "\x7bplacement_template\x7d") template)
    (h4 : ¬ List.IsInfix (str "\x7blink\x7d") template) :
    (∀ c : AdCortexClient μ, c.contextTemplate = template →
      c.AdCortexGenerateContext (fuel + 1) (some ad) = some template) ∧
    (∀ c : AdCortexChatClient μ, c.contextTemplate = template → c.latestAd = some ad →
      c.AdCortexCreateContext (fuel + 1) = some template) := by
  constructor
  · intro c hc
    unfold AdCortexClient.AdCortexGenerateContext
    simp only [hc, strReplace_of_absent _ _ _ _ h1, strReplace_of_absent _ _ _ _ h2,
      strReplace_of_absent _ _ _ _ h3, strReplace_of_absent _ _ _ _ h4,
      Option.some_bind]
  · intro c hc had
    unfold AdCortexChatClient.AdCortexCreateContext
    simp only [hc, had, strReplace_of_absent _ _ _ _ h1,
      strReplace_of_absent _ _ _ _ h2, strReplace_of_absent _ _ _ _ h3,
      strReplace_of_absent _ _ _ _ h4, Option.some_bind]

/-- The template `Buy now` as an instance of C10. -/
theorem render_without_tokens_witness :
    ¬ List.IsInfix (str "\x7bad_title\x7d") (str "Buy now") ∧
    ¬ List.IsInfix (str "\x7bad_description\x7d") (str "Buy now") ∧
    ¬ List.IsInfix (str "\x7bplacement_template\x7d") (str "Buy now") ∧
    ¬ List.IsInfix (str "\x7blink\x7d") (str "Buy now") ∧
    (sampleClient (str "Buy now")).AdCortexGenerateContext 1 (some sampleAd)
      = some (str "Buy now") :=
  ⟨by decide, by decide, by decide, by decide,
    (render_without_tokens 0 (str "Buy now") sampleAd (by decide) (by decide) (by decide)
      (by decide)).1 (sampleClient (str "Buy now")) rfl⟩

/-- The two ways a fetch of the chat client returns: the client is left as it is and no ad
is returned, or the guard let the fetch through, the first ad of the answer became
`latestAd`, a record with the current message count was appended to the log, the ad was
returned without error and one request was handed to the transport. -/
theorem fetchAd_cases {μ : Type} (c : AdCortexChatClient μ) (env : FetchEnv)
    (r : ChatResult μ) (hr : c.adCortexFetchAd env = some r) :
    (r.client = c ∧ r.ad = none) ∨
    (∃ ad, c.numMessagesBeforeAd ≤ len c.messages ∧
      r.client = { c with
                   latestAd := some ad
                   shownAds := c.shownAds ++ [⟨ad, len c.messages⟩] } ∧
      r.ad = some ad ∧ r.err = none ∧ r.requests.length = 1) := by
  rcases env with ⟨m, n, d⟩
  unfold AdCortexChatClient.adCortexFetchAd at hr
  by_cases hg : len c.messages < c.numMessagesBeforeAd
  · rw [if_pos hg] at hr; cases hr; exact Or.inl ⟨rfl, rfl⟩
  · rw [if_neg hg] at hr
    simp only at hr
    cases hsi : c.sessionInfo with
    | none => simp [hsi] at hr
    | some si =>
      simp only [hsi] at hr
      split_ifs at hr
      all_goals
        cases m with
        | some e => cases hr; exact Or.inl ⟨rfl, rfl⟩
        | none =>
          cases n with
          | some e => cases hr; exact Or.inl ⟨rfl, rfl⟩
          | none =>
            cases hhc : c.httpClient with
            | none => simp [hhc] at hr
            | some hc =>
              simp only [hhc] at hr
              cases d with
              | error e => cases hr; exact Or.inl ⟨rfl, rfl⟩
              | ok resp =>
                rcases resp with ⟨st, body, dec, rest⟩
                simp only at hr
                by_cases hst : st ≥ 300
                · rw [if_pos hst] at hr; cases hr; exact Or.inl ⟨rfl, rfl⟩
                · rw [if_neg hst] at hr
                  cases dec with
                  | error e => cases hr; exact Or.inl ⟨rfl, rfl⟩
                  | ok ads =>
                    cases ads with
                    | nil => cases hr; exact Or.inl ⟨rfl, rfl⟩
                    | cons a t =>
                      cases hr
                      exact Or.inr ⟨a, by omega, rfl, rfl, rfl, rfl⟩

/-- The two ways a call of `AdCortexAddMessage` returns: only the message is appended and
no ad is returned, or the call was due, the guard of the fetch let it through and the ad
was recorded at the message count after the append. -/
theorem addMessage_cases {μ : Type} (c : AdCortexChatClient μ) (role : AdCortexRole)
    (content : GoString) (env : FetchEnv) (r : ChatResult μ)
    (hr : c.AdCortexAddMessage role content env = some r) :
    (r.client = c.appendMessage role content ∧ r.ad = none) ∨
    (∃ ad, (c.appendMessage role content).adCortexShouldShowAd = true ∧
      c.numMessagesBeforeAd ≤ len c.messages + 1 ∧
      r.client = { c.appendMessage role content with
                   latestAd := some ad
                   shownAds := c.shownAds ++ [⟨ad, len c.messages + 1⟩] } ∧
      r.ad = some ad ∧ r.err = none ∧ r.requests.length = 1) := by
  cases hdue : (c.appendMessage role content).adCortexShouldShowAd with
  | false =>
    rw [addMessage_of_not_due c role content env hdue] at hr
    cases hr; exact Or.inl ⟨rfl, rfl⟩
  | true =>
    rw [addMessage_of_due c role content env hdue] at hr
    rcases fetchAd_cases _ env r hr with h | ⟨ad, hN, hc, had, herr, hreq⟩
    · exact Or.inl h
    · rw [len_appendMessage, appendMessage_numMessagesBeforeAd] at hN
      rw [len_appendMessage] at hc
      exact Or.inr ⟨ad, rfl, hN, hc, had, herr, hreq⟩

/-- A property of the client that every returning call of `AdCortexAddMessage` preserves
holds after every run. -/
theorem runCalls_preserves {μ : Type} (P : AdCortexChatClient μ → Prop)
    (hstep : ∀ (c : AdCortexChatClient μ) (role : AdCortexRole) (content : GoString)
      (env : FetchEnv) (r : ChatResult μ), P c →
      c.AdCortexAddMessage role content env = some r → P r.client)
    (calls : List Call) (c c1 : AdCortexChatClient μ) (rs : List (ChatResult μ))
    (h0 : P c) (hrun : runCalls c calls = some (c1, rs)) : P c1 := by
  induction calls generalizing c rs with
  | nil =>
    simp only [runCalls, Option.some.injEq, Prod.mk.injEq] at hrun
    rw [← hrun.1]; exact h0
  | cons x xs ih =>
    rw [runCalls_cons] at hrun
    cases hx : c.AdCortexAddMessage x.role x.content x.env with
    | none => simp [hx] at hrun
    | some r =>
      simp only [hx] at hrun
      cases hxs : runCalls r.client xs with
      | none => simp [hxs] at hrun
      | some p =>
        obtain ⟨c2, rs2⟩ := p
        simp only [hxs, Option.some.injEq, Prod.mk.injEq] at hrun
        obtain ⟨h1, h2⟩ := hrun
        subst h1
        exact ih r.client rs2 (hstep c x.role x.content x.env r h0 hx) hxs

/-- C13. In every state reached from a client returned by `NewAdCortexChatClient` by a run
of `AdCortexAddMessage` calls, whatever the transport answers, `latestAd` is the ad of the
last record of the shown-ad log: it is `nil` when the log is empty and the ad stored in the
last record otherwise. -/
theorem latestAd_is_last_shown {μ : Type} (sessionInfo : Option (AdCortexSessionInfo μ))
    (contextTemplate apiKey baseURL : GoString) (httpClient : Option HttpClient)
    (N B : Int) (c c1 : AdCortexChatClient μ) (calls : List Call)
    (rs : List (ChatResult μ))
    (hc : NewAdCortexChatClient sessionInfo contextTemplate apiKey baseURL httpClient N B
      = (some c, none))
    (hrun : runCalls c calls = some (c1, rs)) :
    c1.latestAd = c1.shownAds.getLast?.map (fun s => s.ad) ∧
    (c1.shownAds = [] → c1.latestAd = none) ∧
    (∀ pre s, c1.shownAds = pre ++ [s] → c1.latestAd = some s.ad) := by
  have hinv : c1.latestAd = c1.shownAds.getLast?.map (fun s => s.ad) := by
    refine runCalls_preserves
      (fun d => d.latestAd = d.shownAds.getLast?.map (fun s => s.ad)) ?_ calls c c1 rs ?_ hrun
    · intro d role content env r hd hr
      rcases addMessage_cases d role content env r hr with ⟨h1, -⟩ | ⟨ad, -, -, h1, -⟩
      · rw [h1]; exact hd
      · rw [h1]; simp
    · obtain ⟨-, -, -, hceq⟩ := newChatClient_some _ _ _ _ _ _ _ _ _ hc
      rw [hceq]; rfl
  refine ⟨hinv, fun h => ?_, fun pre s h => ?_⟩
  · rw [hinv, h]; rfl
  · rw [hinv, h]; simp

/-- C14. In every state reached from a client returned by `NewAdCortexChatClient` by a run
of `AdCortexAddMessage` calls, the message counts stored in the shown-ad log are in
non-decreasing order from the first record to the last, and each is at most the current
number of messages. -/
theorem shownAds_indices_sorted {μ : Type} (sessionInfo : Option (AdCortexSessionInfo μ))
    (contextTemplate apiKey baseURL : GoString) (httpClient : Option HttpClient)
    (N B : Int) (c c1 : AdCortexChatClient μ) (calls : List Call)
    (rs : List (ChatResult μ))
    (hc : NewAdCortexChatClient sessionInfo contextTemplate apiKey baseURL httpClient N B
      = (some c, none))
    (hrun : runCalls c calls = some (c1, rs)) :
    List.Pairwise (fun a b => a ≤ b) (c1.shownAds.map fun s => s.messageIndex) ∧
    (∀ s ∈ c1.shownAds, s.messageIndex ≤ len c1.messages) := by
  refine runCalls_preserves
    (fun d => List.Pairwise (fun a b => a ≤ b) (d.shownAds.map fun s => s.messageIndex) ∧
      (∀ s ∈ d.shownAds, s.messageIndex ≤ len d.messages)) ?_ calls c c1 rs ?_ hrun
  · intro d role content env r ⟨hd1, hd2⟩ hr
    rcases addMessage_cases d role content env r hr with ⟨h1, -⟩ | ⟨ad, -, -, h1, -⟩
    · rw [h1]
      refine ⟨hd1, fun s hs => ?_⟩
      rw [len_appendMessage]
      have := hd2 s hs
      omega
    · rw [h1]
      simp only [appendMessage_messages, List.map_append, List.map_cons, List.map_nil]
      refine ⟨?_, fun s hs => ?_⟩
      · rw [List.pairwise_append]
        refine ⟨hd1, List.pairwise_singleton _ _, fun a ha b hb => ?_⟩
        obtain ⟨s, hs, rfl⟩ := List.mem_map.mp ha
        rw [List.mem_singleton] at hb
        have := hd2 s hs
        omega
      · rw [len_append_one]
        rcases List.mem_append.mp hs with hs | hs
        · have := hd2 s hs
          omega
        · rw [List.mem_singleton] at hs
          rw [hs]
  · obtain ⟨-, -, -, hceq⟩ := newChatClient_some _ _ _ _ _ _ _ _ _ hc
    rw [hceq]
    exact ⟨List.Pairwise.nil, fun s hs => by simp at hs⟩

/-- The messages of a client after a returning call. -/
theorem addMessage_messages {μ : Type} (c : AdCortexChatClient μ) (role : AdCortexRole)
    (content : GoString) (env : FetchEnv) (r : ChatResult μ)
    (hr : c.AdCortexAddMessage role content env = some r) :
    r.client.messages = c.messages ++ [AdCortexMessage.mk role content] := by
  rcases addMessage_cases c role content env r hr with ⟨h1, -⟩ | ⟨ad, -, -, h1, -⟩
  · rw [h1]; rfl
  · rw [h1]; rfl

/-- C15. The conversation is append-only: whatever a call of `AdCortexAddMessage` returns
(no fetch, an ad, no ad or an error), the message sequence after the call is the sequence
before it followed by the one message of the call, so every earlier message keeps its index
and its value, after one call and after any run of calls.  The call returns on every client
whose session and HTTP client are set and whose `numMessagesBeforeAd` is not negative. -/
theorem messages_append_only {μ : Type} (c : AdCortexChatClient μ) :
    (∀ (role : AdCortexRole) (content : GoString) (env : FetchEnv) (r : ChatResult μ),
      c.AdCortexAddMessage role content env = some r →
      r.client.messages = c.messages ++ [AdCortexMessage.mk role content] ∧
      ∀ (i : Nat), i < c.messages.length → r.client.messages.get? i = c.messages.get? i) ∧
    (∀ (role : AdCortexRole) (content : GoString) (env : FetchEnv),
      c.nonNil = true → 0 ≤ c.numMessagesBeforeAd →
      ∃ r, c.AdCortexAddMessage role content env = some r ∧
        r.client.messages = c.messages ++ [AdCortexMessage.mk role content]) ∧
    (∀ (calls : List Call) (c1 : AdCortexChatClient μ) (rs : List (ChatResult μ)),
      runCalls c calls = some (c1, rs) →
      c1.messages
        = c.messages ++ calls.map (fun x => AdCortexMessage.mk x.role x.content)) := by
  refine ⟨fun role content env r hr => ?_, fun role content env hp h0 => ?_, ?_⟩
  · have h := addMessage_messages c role content env r hr
    refine ⟨h, fun i hi => ?_⟩
    rw [h, List.get?_eq_getElem?, List.get?_eq_getElem?, List.getElem?_append_left hi]
  · cases hdue : (c.appendMessage role content).adCortexShouldShowAd with
    | false =>
      exact ⟨_, addMessage_of_not_due c role content env hdue, rfl⟩
    | true =>
      obtain ⟨r, hr⟩ := fetchAd_returns (c.appendMessage role content) env hp h0
      have hr2 : c.AdCortexAddMessage role content env = some r := by
        rw [addMessage_of_due c role content env hdue]; exact hr
      exact ⟨r, hr2, addMessage_messages c role content env r hr2⟩
  · intro calls
    induction calls generalizing c with
    | nil =>
      intro c1 rs hrun
      simp only [runCalls, Option.some.injEq, Prod.mk.injEq] at hrun
      rw [← hrun.1]; simp
    | cons x xs ih =>
      intro c1 rs hrun
      rw [runCalls_cons] at hrun
      cases hx : c.AdCortexAddMessage x.role x.content x.env with
      | none => simp [hx] at hrun
      | some r =>
        simp only [hx] at hrun
        cases hxs : runCalls r.client xs with
        | none => simp [hxs] at hrun
        | some p =>
          obtain ⟨c2, rs2⟩ := p
          simp only [hxs, Option.some.injEq, Prod.mk.injEq] at hrun
          obtain ⟨h1, h2⟩ := hrun
          subst h1
          rw [ih r.client c2 rs2 hxs, addMessage_messages c x.role x.content x.env r hx]
          simp

/-- The five calls of the test as an instance of C13: the last record and `latestAd` hold
the ad of the mock server. -/
theorem latestAd_is_last_shown_witness :
    ∃ c1 rs, runCalls (sampleChat 3 2) sampleCalls = some (c1, rs) ∧
      c1.shownAds = [⟨sampleAd, 3⟩] ++ [⟨sampleAd, 5⟩] ∧ c1.latestAd = some sampleAd :=
  ⟨_, _, rfl, rfl,
    (latestAd_is_last_shown (some sampleSession)
      (str "Check out this product: \x7bad_title\x7d - \x7blink\x7d") (str "TEST_API_KEY")
      (str "http://127.0.0.1:8080") none 3 2 (sampleChat 3 2) _ sampleCalls _ rfl rfl).2.2
      [⟨sampleAd, 3⟩] ⟨sampleAd, 5⟩ rfl⟩

/-- The five calls of the test as an instance of C14: records at counts 3 and 5. -/
theorem shownAds_indices_sorted_witness :
    ∃ c1 rs, runCalls (sampleChat 3 2) sampleCalls = some (c1, rs) ∧
      (c1.shownAds.map fun s => s.messageIndex) = [3, 5] ∧
      List.Pairwise (fun a b => a ≤ b) (c1.shownAds.map fun s => s.messageIndex) ∧
      (∀ s ∈ c1.shownAds, s.messageIndex ≤ len c1.messages) :=
  ⟨_, _, rfl, rfl,
    shownAds_indices_sorted (some sampleSession)
      (str "Check out this product: \x7bad_title\x7d - \x7blink\x7d") (str "TEST_API_KEY")
      (str "http://127.0.0.1:8080") none 3 2 (sampleChat 3 2) _ sampleCalls _ rfl rfl⟩

/-- The five calls of the test as an instance of C15. -/
theorem messages_append_only_witness :
    ∃ c1 rs, runCalls (sampleChat 3 2) sampleCalls = some (c1, rs) ∧
      c1.messages
        = (sampleChat 3 2).messages
          ++ sampleCalls.map (fun x => AdCortexMessage.mk x.role x.content) :=
  ⟨_, _, rfl, (messages_append_only (sampleChat 3 2)).2.2 sampleCalls _ _ rfl⟩

/-- What a returning fetch hands to the transport: nothing when the guard stops it;
otherwise the start index of the window is within the messages, every request carries the
messages from the start index on, and the fetch returns an error or has handed exactly one
request to the transport. -/
theorem fetchAd_window {μ : Type} (c : AdCortexChatClient μ) (env : FetchEnv)
    (r : ChatResult μ) (hr : c.adCortexFetchAd env = some r) :
    (len c.messages < c.numMessagesBeforeAd → r = ⟨c, none, none, []⟩) ∧
    (c.numMessagesBeforeAd ≤ len c.messages →
      c.startIndex ≤ len c.messages ∧ (r.err ≠ none ∨ r.requests.length = 1)) ∧
    (∀ req ∈ r.requests,
      c.numMessagesBeforeAd ≤ len c.messages ∧
      req.Payload.Messages = c.messages.drop c.startIndex.toNat) := by
  rcases env with ⟨m, n, d⟩
  unfold AdCortexChatClient.adCortexFetchAd at hr
  unfold AdCortexChatClient.startIndex
  by_cases hg : len c.messages < c.numMessagesBeforeAd
  · rw [if_pos hg] at hr; cases hr
    exact ⟨fun _ => rfl, fun h => absurd hg (by omega), fun req hreq => by simp at hreq⟩
  · rw [if_neg hg] at hr
    have hN : c.numMessagesBeforeAd ≤ len c.messages := by omega
    simp only at hr
    cases hsi : c.sessionInfo with
    | none => simp [hsi] at hr
    | some si =>
      simp only [hsi] at hr
      split_ifs at hr with h1 h2 h2
      all_goals
        cases m with
        | some e =>
          cases hr
          simp only [h1, if_true, if_false]
          exact ⟨fun h => absurd h hg, fun _ => ⟨by omega, Or.inl (by simp)⟩,
            fun req hreq => by simp at hreq⟩
        | none =>
          cases n with
          | some e =>
            cases hr
            simp only [h1, if_true, if_false]
            exact ⟨fun h => absurd h hg, fun _ => ⟨by omega, Or.inl (by simp)⟩,
              fun req hreq => by simp at hreq⟩
          | none =>
            cases hhc : c.httpClient with
            | none => simp [hhc] at hr
            | some hc =>
              simp only [hhc] at hr
              simp only [h1, if_true, if_false]
              refine ⟨fun h => absurd h hg, fun _ => ⟨by omega, ?_⟩, fun req hreq => ?_⟩
              · cases d with
                | error e => cases hr; exact Or.inr rfl
                | ok resp =>
                  rcases resp with ⟨st, body, dec, rest⟩
                  simp only at hr
                  by_cases hst : st ≥ 300
                  · rw [if_pos hst] at hr; cases hr; exact Or.inr rfl
                  · rw [if_neg hst] at hr
                    cases dec with
                    | error e => cases hr; exact Or.inr rfl
                    | ok ads => cases ads <;> (cases hr; exact Or.inr rfl)
              · refine ⟨hN, ?_⟩
                cases d with
                | error e =>
                  cases hr
                  simp only [List.mem_singleton] at hreq
                  rw [hreq]
                | ok resp =>
                  rcases resp with ⟨st, body, dec, rest⟩
                  simp only at hr
                  by_cases hst : st ≥ 300
                  · rw [if_pos hst] at hr; cases hr
                    simp only [List.mem_singleton] at hreq
                    rw [hreq]
                  · rw [if_neg hst] at hr
                    cases dec with
                    | error e =>
                      cases hr
                      simp only [List.mem_singleton] at hreq
                      rw [hreq]
                    | ok ads =>
                      cases ads <;>
                        (cases hr
                         simp only [List.mem_singleton] at hreq
                         rw [hreq])

/-- The requests of a returning call carry the window of the client after the append. -/
theorem addMessage_window {μ : Type} (c : AdCortexChatClient μ) (role : AdCortexRole)
    (content : GoString) (env : FetchEnv) (r : ChatResult μ)
    (hr : c.AdCortexAddMessage role content env = some r) :
    ∀ req ∈ r.requests,
      c.numMessagesBeforeAd ≤ len c.messages + 1 ∧
      req.Payload.Messages
        = (c.messages ++ [AdCortexMessage.mk role content]).drop
            (c.appendMessage role content).startIndex.toNat := by
  intro req hreq
  cases hdue : (c.appendMessage role content).adCortexShouldShowAd with
  | false =>
    rw [addMessage_of_not_due c role content env hdue] at hr
    cases hr; simp at hreq
  | true =>
    rw [addMessage_of_due c role content env hdue] at hr
    obtain ⟨h1, h2⟩ := (fetchAd_window _ env r hr).2.2 req hreq
    rw [len_appendMessage, appendMessage_numMessagesBeforeAd] at h1
    exact ⟨h1, h2⟩

theorem startIndex_of_pos {μ : Type} (c : AdCortexChatClient μ)
    (hN : 0 ≤ c.numMessagesBeforeAd) (hge : c.numMessagesBeforeAd ≤ len c.messages)
    (hlen : len c.messages < 9223372036854775808) :
    c.startIndex = len c.messages - c.numMessagesBeforeAd := by
  unfold AdCortexChatClient.startIndex
  rw [wrapInt64_of_range _ (by omega) (by omega)]
  simp only
  split_ifs <;> omega

/-- C16. On a client with `numMessagesBeforeAd = N >= 1`, the message sequence of every
request that a call of `AdCortexAddMessage` hands to the transport is the last `N` messages
of the conversation after the append: it has `N` elements, it is the end of the
conversation, in order, and its last element is the message just appended.  It is the same
on every client with the same messages and the same `N`, whatever
`numMessagesBetweenAds` is.  Message counts are Go `int`s: they lie below `2^63`. -/
theorem request_window_last_messages {μ : Type} (c : AdCortexChatClient μ)
    (role : AdCortexRole) (content : GoString) (env : FetchEnv) (r : ChatResult μ)
    (hN : 1 ≤ c.numMessagesBeforeAd)
    (hlen : len c.messages + 1 < 9223372036854775808)
    (hr : c.AdCortexAddMessage role content env = some r) :
    ∀ req ∈ r.requests,
      c.numMessagesBeforeAd ≤ len c.messages + 1 ∧
      req.Payload.Messages
        = (c.messages ++ [AdCortexMessage.mk role content]).drop
            (c.messages.length + 1 - c.numMessagesBeforeAd.toNat) ∧
      req.Payload.Messages.length = c.numMessagesBeforeAd.toNat ∧
      List.IsSuffix req.Payload.Messages r.client.messages ∧
      req.Payload.Messages.getLast? = some (AdCortexMessage.mk role content) ∧
      (∀ (d : AdCortexChatClient μ) (env2 : FetchEnv) (r2 : ChatResult μ),
        d.messages = c.messages → d.numMessagesBeforeAd = c.numMessagesBeforeAd →
        d.AdCortexAddMessage role content env2 = some r2 →
        ∀ req2 ∈ r2.requests, req2.Payload.Messages = req.Payload.Messages) := by
  have key : ∀ (d : AdCortexChatClient μ) (env2 : FetchEnv) (r2 : ChatResult μ),
      d.messages = c.messages → d.numMessagesBeforeAd = c.numMessagesBeforeAd →
      d.AdCortexAddMessage role content env2 = some r2 →
      ∀ req2 ∈ r2.requests,
        c.numMessagesBeforeAd ≤ len c.messages + 1 ∧
        req2.Payload.Messages
          = (c.messages ++ [AdCortexMessage.mk role content]).drop
              (c.messages.length + 1 - c.numMessagesBeforeAd.toNat) := by
    intro d env2 r2 hm hn hr2 req2 hreq2
    obtain ⟨h1, h2⟩ := addMessage_window d role content env2 r2 hr2 req2 hreq2
    rw [hm, hn] at h1
    have hs := startIndex_of_pos (d.appendMessage role content)
      (by rw [appendMessage_numMessagesBeforeAd, hn]; omega)
      (by rw [appendMessage_numMessagesBeforeAd, len_appendMessage, hn, hm]; exact h1)
      (by rw [len_appendMessage, hm]; exact hlen)
    rw [hs, len_appendMessage, appendMessage_numMessagesBeforeAd, hm, hn] at h2
    refine ⟨h1, ?_⟩
    rw [h2]
    congr 1
    simp only [len] at h1 ⊢
    omega
  intro req hreq
  obtain ⟨h1, h2⟩ := key c env r rfl rfl hr req hreq
  have hlenN : c.numMessagesBeforeAd.toNat ≤ c.messages.length + 1 := by
    simp only [len] at h1
    omega
  refine ⟨h1, h2, ?_, ?_, ?_, ?_⟩
  · rw [h2, List.length_drop, List.length_append, List.length_singleton]
    omega
  · rw [addMessage_messages c role content env r hr, h2]
    exact List.drop_suffix _ _
  · rw [h2]
    have hpos : 0 < c.numMessagesBeforeAd.toNat := by omega
    rw [List.getLast?_drop]
    simp only [List.length_append, List.length_singleton, List.getLast?_append,
      List.getLast?_singleton]
    rw [if_neg (by omega)]
    rfl
  · intro d env2 r2 hm hn hr2 req2 hreq2
    rw [(key d env2 r2 hm hn hr2 req2 hreq2).2, h2]

/-- The fifth call of the test as an instance of C16: the request carries the third, fourth
and fifth messages. -/
theorem request_window_last_messages_witness :
    (1 : Int) ≤ sampleChatFour.numMessagesBeforeAd ∧
    len sampleChatFour.messages + 1 < 9223372036854775808 ∧
    ∃ r req,
      sampleChatFour.AdCortexAddMessage AdCortexRoleUser (str "Great!") sampleEnv = some r ∧
      r.requests = [req] ∧
      req.Payload.Messages
        = [⟨AdCortexRoleUser, str "How are you?"⟩,
            ⟨AdCortexRoleAI, str "I am just a bot, but good!"⟩,
            ⟨AdCortexRoleUser, str "Great!"⟩] ∧
      req.Payload.Messages.length = sampleChatFour.numMessagesBeforeAd.toNat :=
  ⟨by decide, by decide, _, _, rfl, rfl, rfl,
    (request_window_last_messages sampleChatFour AdCortexRoleUser (str "Great!") sampleEnv _
      (by decide) (by decide) rfl _ (List.mem_singleton_self _)).2.2.1⟩

/-- C17, as the code has it.  On a client whose `numMessagesBeforeAd` is zero or negative
and on which no ad has been shown, a fetch is due at the first appended message.  When
`numMessagesBeforeAd` is zero, the start index of the window is `len(messages)`, which
lies between `0` and `len(messages)`, the call of `AdCortexAddMessage` does not fail on
the slice expression, and the window of every request is empty: the last zero messages,
not the message history. -/
theorem zero_threshold_window {μ : Type} (c : AdCortexChatClient μ) (role : AdCortexRole)
    (content : GoString) (hN : c.numMessagesBeforeAd ≤ 0) :
    (c.shownAds = [] → (c.appendMessage role content).adCortexShouldShowAd = true) ∧
    (c.numMessagesBeforeAd = 0 → len c.messages + 1 < 9223372036854775808 →
      (c.appendMessage role content).startIndex = len (c.appendMessage role content).messages ∧
      0 ≤ (c.appendMessage role content).startIndex ∧
      (c.appendMessage role content).startIndex
        ≤ len (c.appendMessage role content).messages ∧
      (∀ env : FetchEnv, c.nonNil = true →
        ∃ r, c.AdCortexAddMessage role content env = some r) ∧
      (∀ (env : FetchEnv) (r : ChatResult μ),
        c.AdCortexAddMessage role content env = some r →
        ∀ req ∈ r.requests, req.Payload.Messages = [])) := by
  have hlen := len_nonneg c.messages
  refine ⟨fun hlog => ?_, fun h0 hbound => ?_⟩
  · rw [shouldShowAd_empty (c.appendMessage role content) hlog, len_appendMessage,
      appendMessage_numMessagesBeforeAd]
    exact decide_eq_true (by omega)
  · have hs : (c.appendMessage role content).startIndex
        = len (c.appendMessage role content).messages := by
      rw [startIndex_of_pos (c.appendMessage role content)
        (by rw [appendMessage_numMessagesBeforeAd]; omega)
        (by rw [appendMessage_numMessagesBeforeAd, len_appendMessage]; omega)
        (by rw [len_appendMessage]; exact hbound), appendMessage_numMessagesBeforeAd, h0]
      omega
    refine ⟨hs, ?_, ?_, fun env hp => ?_, fun env r hr req hreq => ?_⟩
    · rw [hs, len_appendMessage]; omega
    · rw [hs]
    · cases hdue : (c.appendMessage role content).adCortexShouldShowAd with
      | false => exact ⟨_, addMessage_of_not_due c role content env hdue⟩
      | true =>
        rw [addMessage_of_due c role content env hdue]
        exact fetchAd_returns _ env hp (by rw [appendMessage_numMessagesBeforeAd]; omega)
    · rw [(addMessage_window c role content env r hr req hreq).2, hs]
      simp [len]

/-- C17 as stated fails.  With `numMessagesBeforeAd = 0` the first call sends a request
whose window is empty although the conversation holds one message; with
`numMessagesBeforeAd = -1` the start index of the window is 2, beyond the one message of
the conversation, and the call panics on the slice expression. -/
theorem zero_threshold_window_counterexample :
    (∃ r req,
      (sampleChat 0 2).AdCortexAddMessage AdCortexRoleUser (str "Hello") sampleEnv = some r ∧
      r.client.messages = [⟨AdCortexRoleUser, str "Hello"⟩] ∧ r.requests = [req] ∧
      req.Payload.Messages = [] ∧ req.Payload.Messages ≠ r.client.messages) ∧
    ((sampleChat (-1) 2).appendMessage AdCortexRoleUser (str "Hello")).startIndex = 2 ∧
    len ((sampleChat (-1) 2).appendMessage AdCortexRoleUser (str "Hello")).messages = 1 ∧
    (sampleChat (-1) 2).AdCortexAddMessage AdCortexRoleUser (str "Hello") sampleEnv = none :=
  ⟨⟨_, _, rfl, rfl, rfl, rfl, by decide⟩, by decide, by decide, rfl⟩

/-- The first call of a client with `numMessagesBeforeAd = 0` as an instance of the
amended C17. -/
theorem zero_threshold_window_witness :
    (sampleChat 0 2).numMessagesBeforeAd ≤ 0 ∧
    ((sampleChat 0 2).appendMessage AdCortexRoleUser (str "Hello")).adCortexShouldShowAd
      = true ∧
    ((sampleChat 0 2).appendMessage AdCortexRoleUser (str "Hello")).startIndex
      = len ((sampleChat 0 2).appendMessage AdCortexRoleUser (str "Hello")).messages :=
  ⟨by decide,
    (zero_threshold_window (sampleChat 0 2) AdCortexRoleUser (str "Hello") (by decide)).1 rfl,
    ((zero_threshold_window (sampleChat 0 2) AdCortexRoleUser (str "Hello")
      (by decide)).2 rfl (by decide)).1⟩

/-- C20, as the code has it.  In every state reached from a client returned by
`NewAdCortexChatClient` by a run of `AdCortexAddMessage` calls, for any thresholds and any
transport outcomes, whenever `adCortexShouldShowAd` is true the conversation holds at
least `numMessagesBeforeAd` messages, in the state itself and after the append of a further
call, for the first ad and for every later one.  Hence a due call never takes the skip
branch at the top of `adCortexFetchAd`: when it returns, it returns an error or it has
handed one request to the transport.  When `numMessagesBeforeAd` is not negative a due call
returns, whatever the transport does, and it hands exactly one request to the transport
when the request is built, that is when `json.Marshal` and `http.NewRequest` succeed. -/
theorem due_implies_enough_messages {μ : Type}
    (sessionInfo : Option (AdCortexSessionInfo μ))
    (contextTemplate apiKey baseURL : GoString) (httpClient : Option HttpClient)
    (N B : Int) (c c1 : AdCortexChatClient μ) (calls : List Call)
    (rs : List (ChatResult μ))
    (hc : NewAdCortexChatClient sessionInfo contextTemplate apiKey baseURL httpClient N B
      = (some c, none))
    (hrun : runCalls c calls = some (c1, rs)) :
    c1.numMessagesBeforeAd = N ∧
    (c1.adCortexShouldShowAd = true → N ≤ len c1.messages) ∧
    (∀ (role : AdCortexRole) (content : GoString),
      (c1.appendMessage role content).adCortexShouldShowAd = true →
      N ≤ len (c1.appendMessage role content).messages ∧
      ∀ (env : FetchEnv) (r : ChatResult μ),
        c1.AdCortexAddMessage role content env = some r →
        r ≠ ⟨c1.appendMessage role content, none, none, []⟩ ∧
        (r.err ≠ none ∨ r.requests.length = 1)) ∧
    (∀ (role : AdCortexRole) (content : GoString) (env : FetchEnv),
      (c1.appendMessage role content).adCortexShouldShowAd = true → 0 ≤ N →
      env.marshalErr = none → env.newRequestErr = none →
      ∃ r, c1.AdCortexAddMessage role content env = some r ∧ r.requests.length = 1) ∧
    (∀ (role : AdCortexRole) (content : GoString) (env : FetchEnv),
      (c1.appendMessage role content).adCortexShouldShowAd = true → 0 ≤ N →
      ∃ r, c1.AdCortexAddMessage role content env = some r ∧
        r ≠ ⟨c1.appendMessage role content, none, none, []⟩ ∧
        (r.err ≠ none ∨ r.requests.length = 1)) := by
  have hinv : c1.nonNil = true ∧ c1.numMessagesBeforeAd = N ∧
      (c1.shownAds ≠ [] → N ≤ len c1.messages) := by
    refine runCalls_preserves
      (fun d => d.nonNil = true ∧ d.numMessagesBeforeAd = N ∧
        (d.shownAds ≠ [] → N ≤ len d.messages)) ?_ calls c c1 rs ?_ hrun
    · intro d role content env r ⟨hd1, hd2, hd3⟩ hr
      have hlen := len_nonneg d.messages
      rcases addMessage_cases d role content env r hr with ⟨h1, -⟩ | ⟨ad, -, hge, h1, -⟩
      · rw [h1]
        refine ⟨hd1, hd2, fun hne => ?_⟩
        rw [len_appendMessage]
        have := hd3 hne
        omega
      · rw [h1]
        refine ⟨hd1, hd2, fun _ => ?_⟩
        simp only [appendMessage_messages, len_append_one]
        rw [← hd2]; exact hge
    · obtain ⟨hsi, -, -, hceq⟩ := newChatClient_some _ _ _ _ _ _ _ _ _ hc
      rw [hceq]
      refine ⟨?_, rfl, fun h => absurd rfl h⟩
      unfold AdCortexChatClient.nonNil
      cases sessionInfo with
      | none => exact absurd rfl hsi
      | some si => cases httpClient <;> rfl
  obtain ⟨hp, hN, hlog⟩ := hinv
  have hdue : ∀ d : AdCortexChatClient μ, d.numMessagesBeforeAd = N →
      (d.shownAds ≠ [] → N ≤ len d.messages) → d.adCortexShouldShowAd = true →
      N ≤ len d.messages := by
    intro d hdN hdlog hd
    by_cases he : d.shownAds = []
    · rw [shouldShowAd_empty d he, hdN] at hd
      exact of_decide_eq_true hd
    · exact hdlog he
  have hlen := len_nonneg c1.messages
  have hpast : ∀ (role : AdCortexRole) (content : GoString),
      (c1.appendMessage role content).adCortexShouldShowAd = true →
      N ≤ len (c1.appendMessage role content).messages ∧
      ∀ (env : FetchEnv) (r : ChatResult μ),
        c1.AdCortexAddMessage role content env = some r →
        r ≠ ⟨c1.appendMessage role content, none, none, []⟩ ∧
        (r.err ≠ none ∨ r.requests.length = 1) := by
    intro role content hd
    have hge : N ≤ len (c1.appendMessage role content).messages :=
      hdue (c1.appendMessage role content) hN
        (fun hne => by rw [len_appendMessage]; have := hlog hne; omega) hd
    refine ⟨hge, fun env r hr => ?_⟩
    rw [addMessage_of_due c1 role content env hd] at hr
    have hw := ((fetchAd_window _ env r hr).2.1
      (by rw [appendMessage_numMessagesBeforeAd, hN]; exact hge)).2
    refine ⟨fun heq => ?_, hw⟩
    rw [heq] at hw
    simp at hw
  refine ⟨hN, hdue c1 hN hlog, hpast, fun role content env hd h0 hm hr => ?_,
    fun role content env hd h0 => ?_⟩
  · have hge : N ≤ len (c1.appendMessage role content).messages :=
      hdue (c1.appendMessage role content) hN
        (fun hne => by rw [len_appendMessage]; have := hlog hne; omega) hd
    rw [addMessage_of_due c1 role content env hd]
    exact fetchAd_sends _ env (by rw [appendMessage_numMessagesBeforeAd, hN]; exact h0)
      (by rw [appendMessage_numMessagesBeforeAd, hN]; exact hge) hp hm hr
  · obtain ⟨r, hr⟩ : ∃ r, c1.AdCortexAddMessage role content env = some r := by
      rw [addMessage_of_due c1 role content env hd]
      exact fetchAd_returns _ env hp (by rw [appendMessage_numMessagesBeforeAd, hN]; exact h0)
    exact ⟨r, hr, (hpast role content hd).2 env r hr⟩

/-- C20 as stated fails: a due fetch does not always reach the transport.  With
`numMessagesBeforeAd = -1` the constructor returns a client, the first appended message is
due and the guard lets the fetch through, but the start index of the window is 2, beyond
the one message of the conversation: the call panics on the slice expression for every
transport outcome and no request is made.  With `numMessagesBeforeAd = 1` and a payload
that `json.Marshal` refuses, the first call is due and returns the marshal error without a
request. -/
theorem due_implies_enough_messages_counterexample :
    NewAdCortexChatClient (some sampleSession)
        (str "Check out this product: \x7bad_title\x7d - \x7blink\x7d") (str "TEST_API_KEY")
        (str "http://127.0.0.1:8080") none (-1) 2
      = (some (sampleChat (-1) 2), none) ∧
    ((sampleChat (-1) 2).appendMessage AdCortexRoleUser (str "Hello")).adCortexShouldShowAd
      = true ∧
    (∀ env : FetchEnv,
      (sampleChat (-1) 2).AdCortexAddMessage AdCortexRoleUser (str "Hello") env = none) ∧
    ((sampleChat 1 1).appendMessage AdCortexRoleUser (str "Hello")).adCortexShouldShowAd
      = true ∧
    (∃ r,
      (sampleChat 1 1).AdCortexAddMessage AdCortexRoleUser (str "Hello") sampleMarshalFailEnv
        = some r ∧
      r.err = some (str "failed to marshal request payload: json: unsupported type: chan int")
        ∧ r.requests = []) :=
  ⟨rfl, rfl, fun _ => rfl, rfl, ⟨_, rfl, rfl, rfl⟩⟩

/-- The first four calls of the test as an instance of the amended C20: the fifth message
is due, the conversation then holds five messages, at least the three that the first
threshold asks for, and the call hands one request to the mock server. -/
theorem due_implies_enough_messages_witness :
    ∃ c1 rs, runCalls (sampleChat 3 2) (sampleCalls.take 4) = some (c1, rs) ∧
      c1.numMessagesBeforeAd = 3 ∧
      (c1.appendMessage AdCortexRoleUser (str "Great!")).adCortexShouldShowAd = true ∧
      (3 : Int) ≤ len (c1.appendMessage AdCortexRoleUser (str "Great!")).messages ∧
      ∃ r, c1.AdCortexAddMessage AdCortexRoleUser (str "Great!") sampleEnv = some r ∧
        r.requests.length = 1 :=
  ⟨_, _, rfl,
    (due_implies_enough_messages (some sampleSession)
      (str "Check out this product: \x7bad_title\x7d - \x7blink\x7d") (str "TEST_API_KEY")
      (str "http://127.0.0.1:8080") none 3 2 (sampleChat 3 2) _ (sampleCalls.take 4) _
      rfl rfl).1,
    rfl,
    ((due_implies_enough_messages (some sampleSession)
      (str "Check out this product: \x7bad_title\x7d - \x7blink\x7d") (str "TEST_API_KEY")
      (str "http://127.0.0.1:8080") none 3 2 (sampleChat 3 2) _ (sampleCalls.take 4) _
      rfl rfl).2.2.1 AdCortexRoleUser (str "Great!") rfl).1,
    (due_implies_enough_messages (some sampleSession)
      (str "Check out this product: \x7bad_title\x7d - \x7blink\x7d") (str "TEST_API_KEY")
      (str "http://127.0.0.1:8080") none 3 2 (sampleChat 3 2) _ (sampleCalls.take 4) _
      rfl rfl).2.2.2.1 AdCortexRoleUser (str "Great!") sampleEnv rfl (by decide) rfl rfl⟩

/-- The comparison of `findIndex` at index `i` succeeds exactly when `sub` starts the rest
of `s` from `i` on. -/
theorem slice_eq_iff_starts (s sub : GoString) (i : Nat) :
    (s.drop i).take sub.length = sub ↔ List.IsPrefix sub (s.drop i) := by
  rw [List.prefix_iff_eq_take]
  exact eq_comm

/-- The loop of `findIndex` returns the index of an occurrence when none comes before it
from the loop variable on. -/
theorem findIndexLoop_first (s sub : GoString) (p : Nat)
    (hocc : (s.drop p).take sub.length = sub) (hp : p + sub.length ≤ s.length)
    (fuel i : Nat) (hi : i ≤ p) (hfuel : p < i + fuel)
    (hfirst : ∀ j, i ≤ j → j < p → ¬ (s.drop j).take sub.length = sub) :
    findIndexLoop s sub fuel i = (p : Int) := by
  induction fuel generalizing i with
  | zero => omega
  | succ fuel ih =>
    unfold findIndexLoop
    rcases Nat.eq_or_lt_of_le hi with heq | hlt
    · subst heq
      rw [if_pos hp, if_pos hocc]
    · have hg : i + sub.length ≤ s.length := by omega
      rw [if_pos hg, if_neg (hfirst i (Nat.le_refl i) hlt)]
      exact ih (i + 1) (by omega) (by omega) (fun j hj hjp => hfirst j (by omega) hjp)

/-- `findIndex` returns the index of the first occurrence. -/
theorem findIndex_first (a sub b : GoString)
    (hfirst : ∀ j, j < a.length → ¬ ((a ++ sub ++ b).drop j).take sub.length = sub) :
    findIndex (a ++ sub ++ b) sub = (a.length : Int) := by
  unfold findIndex
  refine findIndexLoop_first _ sub a.length ?_ ?_ _ 0 (Nat.zero_le _) ?_
    (fun j _ hj => hfirst j hj)
  · rw [List.append_assoc, List.drop_left, List.take_left]
  · simp only [List.length_append]; omega
  · simp only [List.length_append]; omega

/-- The loop of `findIndex` does not return `-1` when an occurrence lies ahead. -/
theorem findIndexLoop_found (s sub : GoString) (p : Nat)
    (hocc : (s.drop p).take sub.length = sub) (hp : p + sub.length ≤ s.length)
    (fuel i : Nat) (hi : i ≤ p) (hfuel : p < i + fuel) :
    0 ≤ findIndexLoop s sub fuel i := by
  induction fuel generalizing i with
  | zero => omega
  | succ fuel ih =>
    unfold findIndexLoop
    have hg : i + sub.length ≤ s.length := by omega
    rw [if_pos hg]
    split_ifs with ht
    · omega
    · have hne : i ≠ p := fun h => ht (h ▸ hocc)
      exact ih (i + 1) (by omega) (by omega)

/-- When `findIndex` returns `-1`, `sub` does not occur in `s`. -/
theorem absent_of_findIndex (s sub : GoString) (h : findIndex s sub = -1) :
    ¬ List.IsInfix sub s := by
  rintro ⟨a, b, rfl⟩
  have h0 : 0 ≤ findIndex (a ++ sub ++ b) sub := by
    unfold findIndex
    refine findIndexLoop_found _ sub a.length ?_ ?_ _ 0 (Nat.zero_le _) ?_
    · rw [List.append_assoc, List.drop_left, List.take_left]
    · simp only [List.length_append]; omega
    · simp only [List.length_append]; omega
  omega

/-- `findIndex` returns `-1` exactly when `sub` does not occur in `s`. -/
theorem findIndex_eq_neg_one_iff (s sub : GoString) :
    findIndex s sub = -1 ↔ ¬ List.IsInfix sub s :=
  ⟨absent_of_findIndex s sub, findIndex_of_absent s sub⟩

/-- The string that `adCortexReplaceAll` returns holds no occurrence of `old`. -/
theorem replaceAll_result_absent (fuel : Nat) (s old new out : GoString)
    (h : adCortexReplaceAll fuel s old new = some out) : ¬ List.IsInfix old out := by
  induction fuel generalizing s with
  | zero => simp [adCortexReplaceAll] at h
  | succ fuel ih =>
    unfold adCortexReplaceAll at h
    simp only at h
    split_ifs at h with hi
    · simp only [Option.some.injEq] at h
      rw [← h]
      exact absent_of_findIndex s old hi
    · exact ih _ h

/-- One iteration of the loop of `adCortexReplaceAll` at the first occurrence of `old`. -/
theorem replaceAll_step (fuel : Nat) (a old b new : GoString)
    (hfirst : ∀ j, j < a.length → ¬ ((a ++ old ++ b).drop j).take old.length = old) :
    adCortexReplaceAll (fuel + 1) (a ++ old ++ b) old new
      = adCortexReplaceAll fuel (a ++ new ++ b) old new := by
  rw [adCortexReplaceAll]
  simp only [findIndex_first a old b hfirst]
  have hne : ¬ ((a.length : Int) = -1) := by omega
  rw [if_neg hne]
  congr 1
  simp only [Int.toNat_ofNat, List.append_assoc, List.take_left]
  congr 2
  rw [← List.append_assoc, List.drop_left' (by simp)]

/-- When `new` is `old` and `old` occurs in `s`, the loop of `adCortexReplaceAll` never
reaches its `break`. -/
theorem replaceAll_self_loops (fuel : Nat) (s : GoString) :
    adCortexReplaceAll fuel s s s = none := by
  induction fuel with
  | zero => rfl
  | succ fuel ih =>
    have h := replaceAll_step fuel [] s [] s (fun j hj => by simp at hj)
    simp only [List.nil_append, List.append_nil] at h
    rw [h, ih]

/-- Every token starts with the opening brace and holds no other one. -/
theorem token_text_shape (k : Token) :
    ∃ tail, k.text = openBrace :: tail ∧ openBrace ∉ tail := by
  cases k
  · exact ⟨(str "\x7bad_title\x7d").tail, by decide, by decide⟩
  · exact ⟨(str "\x7bad_description\x7d").tail, by decide, by decide⟩
  · exact ⟨(str "\x7bplacement_template\x7d").tail, by decide, by decide⟩
  · exact ⟨(str "\x7blink\x7d").tail, by decide, by decide⟩

theorem token_text_length (k : Token) : 5 ≤ k.text.length := by
  cases k <;> decide

/-- No token starts another one: a string that starts with the text of a token and, for
its first characters, is the text of another token, has the same token twice. -/
theorem token_prefix_unique (k m : Token) (rest : GoString)
    (h : List.IsPrefix k.text (m.text ++ rest)) : k = m := by
  have h5 : k.text.take 5 = m.text.take 5 := by
    obtain ⟨t, ht⟩ := h
    have h1 : (k.text ++ t).take 5 = (m.text ++ rest).take 5 := by rw [ht]
    rw [List.take_append_of_le_length (token_text_length k),
      List.take_append_of_le_length (token_text_length m)] at h1
    exact h1
  revert h5
  cases k <;> cases m <;> first | (intro _; rfl) | decide

/-- A string that starts with a token starts with the opening brace. -/
theorem head_of_token_start (k : Token) (c : Char) (rest : GoString)
    (h : List.IsPrefix k.text (c :: rest)) : c = openBrace := by
  obtain ⟨tail, hk, -⟩ := token_text_shape k
  rw [hk, List.cons_prefix_cons] at h
  exact h.1.symm

/-- A token that starts inside a string, before its end, starts at an opening brace of
the string. -/
theorem brace_of_token_inside (k : Token) (l r : GoString) (j : Nat) (hj : j < l.length)
    (h : List.IsPrefix k.text (l.drop j ++ r)) : openBrace ∈ l.drop j := by
  cases hd : l.drop j with
  | nil =>
    have : (l.drop j).length = 0 := by rw [hd]; rfl
    rw [List.length_drop] at this
    omega
  | cons x xs =>
    rw [hd, List.cons_append] at h
    rw [head_of_token_start k x _ h]
    exact List.mem_cons_self _ _

/-- In a template made of pieces whose texts hold no opening brace, a token that does not
occur among the first pieces does not start inside them. -/
theorem no_token_inside (k : Token) (pre : List Piece) (rest : GoString)
    (htext : ∀ t, Piece.text t ∈ pre → openBrace ∉ t)
    (hk : Piece.token k ∉ pre) (j : Nat) (hj : j < (piecesSource pre).length) :
    ¬ List.IsPrefix k.text ((piecesSource pre ++ rest).drop j) := by
  induction pre generalizing j with
  | nil => simp [piecesSource] at hj
  | cons p ps ih =>
    intro h
    simp only [piecesSource, List.append_assoc] at h hj
    rw [List.drop_append_eq_append_drop] at h
    by_cases hjp : j < p.source.length
    · have hb := brace_of_token_inside k p.source _ j hjp h
      cases p with
      | text t =>
        exact htext t (List.mem_cons_self _ _) (List.mem_of_mem_drop hb)
      | token m =>
        obtain ⟨tail, hm, htail⟩ := token_text_shape m
        cases j with
        | zero =>
          simp only [List.drop_zero, Nat.zero_sub] at h
          have := token_prefix_unique k m _ h
          exact hk (this ▸ List.mem_cons_self _ _)
        | succ j =>
          simp only [Piece.source, hm, List.drop_succ_cons] at hb
          exact htail (List.mem_of_mem_drop hb)
    · have hge : p.source.length ≤ j := by omega
      rw [List.drop_eq_nil_of_le hge, List.nil_append] at h
      refine ih (fun t ht => htext t (List.mem_cons_of_mem _ ht))
        (fun hm => hk (List.mem_cons_of_mem _ hm)) (j - p.source.length) ?_ h
      rw [List.length_append] at hj
      omega

/-- In a template made of pieces whose texts hold no opening brace, a token that is not
among the pieces does not occur. -/
theorem token_absent_of_not_mem (k : Token) (ps : List Piece)
    (htext : ∀ t, Piece.text t ∈ ps → openBrace ∉ t) (hk : Piece.token k ∉ ps) :
    ¬ List.IsInfix k.text (piecesSource ps) := by
  rintro ⟨a, b, hab⟩
  have hlen : a.length < (piecesSource ps).length := by
    rw [← hab]
    have := token_text_length k
    simp only [List.length_append]
    omega
  refine no_token_inside k ps [] htext hk a.length hlen ?_
  rw [List.append_nil, ← hab, List.append_assoc, List.drop_left]
  exact List.prefix_append _ _

theorem piecesSource_append (ps qs : List Piece) :
    piecesSource (ps ++ qs) = piecesSource ps ++ piecesSource qs := by
  induction ps with
  | nil => rfl
  | cons p ps ih =>
    rw [List.cons_append, piecesSource, piecesSource, ih, List.append_assoc]

/-- The first place of a piece among the pieces. -/
theorem first_split (p : Piece) (ps : List Piece) (h : p ∈ ps) :
    ∃ pre post, ps = pre ++ p :: post ∧ p ∉ pre := by
  induction ps with
  | nil => simp at h
  | cons q qs ih =>
    by_cases hq : q = p
    · exact ⟨[], qs, by rw [hq]; rfl, by simp⟩
    · rcases List.mem_cons.mp h with hp | hp
      · exact absurd hp.symm hq
      · obtain ⟨pre, post, h1, h2⟩ := ih hp
        refine ⟨q :: pre, post, by rw [h1]; rfl, ?_⟩
        intro hm
        rcases List.mem_cons.mp hm with h3 | h3
        · exact hq h3.symm
        · exact h2 h3

theorem substitute_map_of_not_mem (k : Token) (new : GoString) (ps : List Piece)
    (hk : Piece.token k ∉ ps) : ps.map (Piece.substitute k new) = ps := by
  induction ps with
  | nil => rfl
  | cons p ps ih =>
    rw [List.map_cons, ih (fun h => hk (List.mem_cons_of_mem _ h))]
    cases p with
    | text t => rfl
    | token m =>
      have hne : m ≠ k := fun h => hk (h ▸ List.mem_cons_self _ _)
      simp only [Piece.substitute, hne, if_false]

/-- One pass of `adCortexReplaceAll` over a template made of pieces whose texts hold no
opening brace, with a replacement text that holds none: each piece that is the token
becomes the replacement text and the other pieces are left as they are.  The loop makes one
iteration for each such piece and one more. -/
theorem replaceAll_pieces (k : Token) (new : GoString) (fuel : Nat) (ps : List Piece)
    (htext : ∀ t, Piece.text t ∈ ps → openBrace ∉ t)
    (hnew : Piece.token k ∈ ps → openBrace ∉ new)
    (hfuel : ps.count (Piece.token k) < fuel) :
    adCortexReplaceAll fuel (piecesSource ps) k.text new
      = some (piecesSource (ps.map (Piece.substitute k new))) := by
  induction fuel generalizing ps with
  | zero => omega
  | succ fuel ih =>
    by_cases hk : Piece.token k ∈ ps
    · obtain ⟨pre, post, hps, hpre⟩ := first_split (Piece.token k) ps hk
      have hb := hnew hk
      subst hps
      have hsrc : piecesSource (pre ++ Piece.token k :: post)
          = piecesSource pre ++ k.text ++ piecesSource post := by
        rw [piecesSource_append]; simp only [piecesSource, Piece.source, List.append_assoc]
      have hfirst : ∀ j, j < (piecesSource pre).length →
          ¬ ((piecesSource pre ++ k.text ++ piecesSource post).drop j).take k.text.length
              = k.text := by
        intro j hj
        rw [slice_eq_iff_starts, List.append_assoc]
        exact no_token_inside k pre _
          (fun t ht => htext t (List.mem_append_left _ ht)) hpre j hj
      rw [hsrc, replaceAll_step fuel _ _ _ new hfirst]
      have hsrc2 : piecesSource pre ++ new ++ piecesSource post
          = piecesSource (pre ++ Piece.text new :: post) := by
        rw [piecesSource_append]; simp only [piecesSource, Piece.source, List.append_assoc]
      rw [hsrc2, ih (pre ++ Piece.text new :: post) ?_ (fun _ => hb) ?_]
      · simp only [List.map_append, List.map_cons, Piece.substitute, if_true]
      · intro t ht
        rcases List.mem_append.mp ht with h1 | h1
        · exact htext t (List.mem_append_left _ h1)
        · rcases List.mem_cons.mp h1 with h2 | h2
          · rw [Piece.text.injEq] at h2
            rw [h2]; exact hb
          · exact htext t (List.mem_append_right _ (List.mem_cons_of_mem _ h2))
      · have hne : Piece.text new ≠ Piece.token k := by simp
        simp only [List.count_append, List.count_cons_self] at hfuel
        simp only [List.count_append, List.count_cons_of_ne hne.symm]
        omega
    · rw [substitute_map_of_not_mem k new ps hk, adCortexReplaceAll]
      simp only [findIndex_of_absent _ _ (token_absent_of_not_mem k ps htext hk), if_true]

/-- The texts of the pieces after a pass hold no opening brace when the texts before it and
the replacement text hold none. -/
theorem substitute_texts (k : Token) (new : GoString) (ps : List Piece)
    (htext : ∀ t, Piece.text t ∈ ps → openBrace ∉ t)
    (hnew : Piece.token k ∈ ps → openBrace ∉ new) :
    ∀ t, Piece.text t ∈ ps.map (Piece.substitute k new) → openBrace ∉ t := by
  intro t ht
  obtain ⟨p, hp, hpt⟩ := List.mem_map.mp ht
  cases p with
  | text u =>
    simp only [Piece.substitute, Piece.text.injEq] at hpt
    rw [← hpt]; exact htext u hp
  | token m =>
    by_cases hm : m = k
    · simp only [Piece.substitute, hm, if_true, Piece.text.injEq] at hpt
      rw [← hpt]; exact hnew (hm ▸ hp)
    · simp only [Piece.substitute, hm, if_false] at hpt
      cases hpt

/-- The tokens among the pieces after a pass were among the pieces before it. -/
theorem substitute_tokens (k : Token) (new : GoString) (ps : List Piece) (m : Token)
    (h : Piece.token m ∈ ps.map (Piece.substitute k new)) : Piece.token m ∈ ps := by
  obtain ⟨p, hp, hpt⟩ := List.mem_map.mp h
  cases p with
  | text u => simp only [Piece.substitute] at hpt; cases hpt
  | token n =>
    by_cases hn : n = k
    · simp only [Piece.substitute, hn, if_true] at hpt; cases hpt
    · simp only [Piece.substitute, hn, if_false, Piece.token.injEq] at hpt
      rw [← hpt]; exact hp

/-- After the four passes every piece holds its rendered text. -/
theorem four_passes_rendered (ad : AdCortexAd) (ps : List Piece) :
    piecesSource
        ((((ps.map (Piece.substitute .adTitle ad.AdTitle)).map
          (Piece.substitute .adDescription ad.AdDescription)).map
          (Piece.substitute .placementTemplate ad.PlacementTemplate)).map
          (Piece.substitute .link ad.Link))
      = piecesRendered ad ps := by
  induction ps with
  | nil => rfl
  | cons p ps ih =>
    simp only [List.map_cons, piecesSource, piecesRendered, ih]
    congr 1
    cases p with
    | text t => rfl
    | token m => cases m <;> rfl

theorem matchToken_some (s : GoString) (m : Token) (h : matchToken s = some m) :
    List.IsPrefix m.text s := by
  unfold matchToken at h
  have := List.find?_some h
  simpa using this

theorem matchToken_token (k : Token) (rest : GoString) :
    matchToken (k.text ++ rest) = some k := by
  cases h : matchToken (k.text ++ rest) with
  | none =>
    unfold matchToken at h
    rw [List.find?_eq_none] at h
    have hk := h k (by cases k <;> simp)
    simp at hk
  | some m =>
    rw [token_prefix_unique m k rest (matchToken_some _ m h)]

theorem matchToken_none (c : Char) (rest : GoString) (hc : c ≠ openBrace) :
    matchToken (c :: rest) = none := by
  cases h : matchToken (c :: rest) with
  | none => rfl
  | some m => exact absurd (head_of_token_start m c rest (matchToken_some _ m h)) hc

theorem renderScan_skip (ad : AdCortexAd) (xs rest : GoString) :
    renderScan ad xs.length (xs ++ rest) = renderScan ad 0 rest := by
  induction xs with
  | nil => rfl
  | cons x xs ih =>
    rw [List.length_cons, List.cons_append, renderScan]
    exact ih

theorem renderScan_text (ad : AdCortexAd) (t rest : GoString) (ht : openBrace ∉ t) :
    renderScan ad 0 (t ++ rest) = t ++ renderScan ad 0 rest := by
  induction t with
  | nil => rfl
  | cons c t ih =>
    have hc : c ≠ openBrace := fun h => ht (h ▸ List.mem_cons_self _ _)
    rw [List.cons_append, renderScan, matchToken_none c _ hc]
    simp only [List.cons_append, List.cons.injEq, true_and]
    exact ih (fun h => ht (List.mem_cons_of_mem _ h))

theorem renderScan_token (ad : AdCortexAd) (k : Token) (rest : GoString) :
    renderScan ad 0 (k.text ++ rest) = k.field ad ++ renderScan ad 0 rest := by
  obtain ⟨tail, hk, -⟩ := token_text_shape k
  have hm := matchToken_token k rest
  rw [hk] at hm ⊢
  rw [List.cons_append, renderScan, ← List.cons_append, hm]
  simp only [hk, List.length_cons, Nat.add_sub_cancel]
  rw [renderScan_skip]

/-- The single scan of a template made of pieces whose texts hold no opening brace puts the
field of the ad in the place of each token piece. -/
theorem renderScan_pieces (ad : AdCortexAd) (ps : List Piece)
    (htext : ∀ t, Piece.text t ∈ ps → openBrace ∉ t) :
    renderScan ad 0 (piecesSource ps) = piecesRendered ad ps := by
  induction ps with
  | nil => rfl
  | cons p ps ih =>
    have ih2 := ih (fun t ht => htext t (List.mem_cons_of_mem _ ht))
    cases p with
    | text t =>
      simp only [piecesSource, piecesRendered, Piece.source, Piece.rendered]
      rw [renderScan_text ad t _ (htext t (List.mem_cons_self _ _)), ih2]
    | token k =>
      simp only [piecesSource, piecesRendered, Piece.source, Piece.rendered]
      rw [renderScan_token, ih2]

/-- The four passes of the renderer over a template made of pieces whose texts hold no
opening brace, for an ad whose fields, for the tokens among the pieces, hold none. -/
theorem four_passes_pieces (ad : AdCortexAd) (ps : List Piece) (fuel : Nat)
    (htext : ∀ t, Piece.text t ∈ ps → openBrace ∉ t)
    (hfields : ∀ k, Piece.token k ∈ ps → openBrace ∉ k.field ad)
    (hfuel : ps.length < fuel) :
    ((adCortexStrReplace fuel (piecesSource ps) (str "\x7bad_title\x7d") ad.AdTitle).bind
        fun result =>
      (adCortexStrReplace fuel result (str "\x7bad_description\x7d") ad.AdDescription).bind
        fun result =>
      (adCortexStrReplace fuel result (str "\x7bplacement_template\x7d")
        ad.PlacementTemplate).bind
        fun result => adCortexStrReplace fuel result (str "\x7blink\x7d") ad.Link)
      = some (piecesRendered ad ps) := by
  have hcount : ∀ (qs : List Piece) (k : Token), qs.length = ps.length →
      qs.count (Piece.token k) < fuel := by
    intro qs k hq
    have := List.count_le_length (Piece.token k) qs
    omega
  have h1 := replaceAll_pieces .adTitle ad.AdTitle fuel ps htext
    (fun h => hfields _ h) (hcount ps _ rfl)
  have ht1 := substitute_texts .adTitle ad.AdTitle ps htext (fun h => hfields _ h)
  have h2 := replaceAll_pieces .adDescription ad.AdDescription fuel _ ht1
    (fun h => hfields _ (substitute_tokens _ _ _ _ h)) (hcount _ _ (by simp))
  have ht2 := substitute_texts .adDescription ad.AdDescription _ ht1
    (fun h => hfields _ (substitute_tokens _ _ _ _ h))
  have h3 := replaceAll_pieces .placementTemplate ad.PlacementTemplate fuel _ ht2
    (fun h => hfields _ (substitute_tokens _ _ _ _ (substitute_tokens _ _ _ _ h)))
    (hcount _ _ (by simp))
  have ht3 := substitute_texts .placementTemplate ad.PlacementTemplate _ ht2
    (fun h => hfields _ (substitute_tokens _ _ _ _ (substitute_tokens _ _ _ _ h)))
  have h4 := replaceAll_pieces .link ad.Link fuel _ ht3
    (fun h => hfields _ (substitute_tokens _ _ _ _ (substitute_tokens _ _ _ _
      (substitute_tokens _ _ _ _ h))))
    (hcount _ _ (by simp))
  simp only [Token.text] at h1 h2 h3 h4
  unfold adCortexStrReplace
  rw [h1, Option.some_bind, h2, Option.some_bind, h3, Option.some_bind, h4,
    four_passes_rendered]

theorem generateContext_pieces {μ : Type} (c : AdCortexClient μ) (ad : AdCortexAd)
    (ps : List Piece) (fuel : Nat) (hc : c.contextTemplate = piecesSource ps)
    (htext : ∀ t, Piece.text t ∈ ps → openBrace ∉ t)
    (hfields : ∀ k, Piece.token k ∈ ps → openBrace ∉ k.field ad)
    (hfuel : ps.length < fuel) :
    c.AdCortexGenerateContext fuel (some ad) = some (piecesRendered ad ps) := by
  unfold AdCortexClient.AdCortexGenerateContext
  simp only [hc]
  exact four_passes_pieces ad ps fuel htext hfields hfuel

theorem createContext_pieces {μ : Type} (c : AdCortexChatClient μ) (ad : AdCortexAd)
    (ps : List Piece) (fuel : Nat) (hc : c.contextTemplate = piecesSource ps)
    (had : c.latestAd = some ad)
    (htext : ∀ t, Piece.text t ∈ ps → openBrace ∉ t)
    (hfields : ∀ k, Piece.token k ∈ ps → openBrace ∉ k.field ad)
    (hfuel : ps.length < fuel) :
    c.AdCortexCreateContext fuel = some (piecesRendered ad ps) := by
  unfold AdCortexChatClient.AdCortexCreateContext
  simp only [hc, had]
  exact four_passes_pieces ad ps fuel htext hfields hfuel

theorem buyNowPieces_texts : ∀ t, Piece.text t ∈ buyNowPieces → openBrace ∉ t := by
  intro t ht
  simp only [buyNowPieces, List.mem_cons, Piece.text.injEq, List.mem_singleton,
    reduceCtorEq, false_or, or_false, List.not_mem_nil] at ht
  rcases ht with rfl | rfl <;> decide

theorem buyNowPieces_tokens (ad : AdCortexAd) (h1 : openBrace ∉ ad.AdTitle)
    (h2 : openBrace ∉ ad.Link) :
    ∀ k, Piece.token k ∈ buyNowPieces → openBrace ∉ k.field ad := by
  intro k hk
  simp only [buyNowPieces, List.mem_cons, Piece.token.injEq, List.mem_singleton,
    reduceCtorEq, false_or, or_false, List.not_mem_nil] at hk
  rcases hk with rfl | rfl
  · exact h1
  · exact h2

/-- C11, as the code has it.  For a template that is made of tokens and of texts without
an opening brace, and an ad that is not `nil` and whose fields, for the tokens of the
template, hold no opening brace, the output of `AdCortexGenerateContext` (and of
`AdCortexCreateContext` for the latest ad) is the template with each token replaced by the
field of the ad in one left-to-right scan, the inserted text copied as it is.  The
template `Buy now: {ad_title} - {link}` yields `Buy now: ` then the title then ` - ` then
the link for every title and link without an opening brace.  The four loops make at most
one iteration for each piece and one more. -/
theorem render_single_scan {μ : Type} (fuel : Nat) (ad : AdCortexAd) (ps : List Piece)
    (htext : ∀ t, Piece.text t ∈ ps → openBrace ∉ t)
    (hfields : ∀ k, Piece.token k ∈ ps → openBrace ∉ k.field ad)
    (hfuel : ps.length < fuel) :
    (∀ c : AdCortexClient μ, c.contextTemplate = piecesSource ps →
      c.AdCortexGenerateContext fuel (some ad)
        = some (renderScan ad 0 c.contextTemplate)) ∧
    (∀ c : AdCortexChatClient μ, c.contextTemplate = piecesSource ps →
      c.latestAd = some ad →
      c.AdCortexCreateContext fuel = some (renderScan ad 0 c.contextTemplate)) ∧
    renderScan ad 0 (piecesSource ps) = piecesRendered ad ps ∧
    (∀ (c : AdCortexClient μ) (ad2 : AdCortexAd),
      c.contextTemplate = str "Buy now: \x7bad_title\x7d - \x7blink\x7d" →
      openBrace ∉ ad2.AdTitle → openBrace ∉ ad2.Link →
      c.AdCortexGenerateContext 5 (some ad2)
        = some (str "Buy now: " ++ ad2.AdTitle ++ str " - " ++ ad2.Link)) := by
  have hscan := renderScan_pieces ad ps htext
  refine ⟨fun c hc => ?_, fun c hc had => ?_, hscan, fun c ad2 hc h1 h2 => ?_⟩
  · rw [hc, hscan]
    exact generateContext_pieces c ad ps fuel hc htext hfields hfuel
  · rw [hc, hscan]
    exact createContext_pieces c ad ps fuel hc had htext hfields hfuel
  · have hsrc : str "Buy now: \x7bad_title\x7d - \x7blink\x7d" = piecesSource buyNowPieces := by
      decide
    rw [generateContext_pieces c ad2 buyNowPieces 5 (hc.trans hsrc) buyNowPieces_texts
      (buyNowPieces_tokens ad2 h1 h2) (by decide)]
    simp [piecesRendered, buyNowPieces, Piece.rendered, Token.field]

/-- C11 as stated fails.  For the template `Buy now: {ad_title} - {link}` and an ad whose
title is `{link}` and whose link is `L`, the title inserted by the first pass is scanned
by the pass of the link token: the output is `Buy now: L - L`, where one left-to-right
scan of the template gives `Buy now: {link} - L`. -/
theorem render_single_scan_counterexample :
    (sampleClient (str "Buy now: \x7bad_title\x7d - \x7blink\x7d")).AdCortexGenerateContext 10
        (some cascadeAd) = some (str "Buy now: L - L") ∧
    renderScan cascadeAd 0 (str "Buy now: \x7bad_title\x7d - \x7blink\x7d")
      = str "Buy now: \x7blink\x7d - L" ∧
    str "Buy now: " ++ cascadeAd.AdTitle ++ str " - " ++ cascadeAd.Link
      = str "Buy now: \x7blink\x7d - L" ∧
    (sampleClient (str "Buy now: \x7bad_title\x7d - \x7blink\x7d")).AdCortexGenerateContext 10
        (some cascadeAd)
      ≠ some (renderScan cascadeAd 0 (str "Buy now: \x7bad_title\x7d - \x7blink\x7d")) :=
  ⟨by decide, by decide, by decide, by decide⟩

/-- The template and the ad of the test as an instance of the amended C11. -/
theorem render_single_scan_witness :
    (∀ t, Piece.text t ∈ buyNowPieces → openBrace ∉ t) ∧
    (∀ k, Piece.token k ∈ buyNowPieces → openBrace ∉ k.field sampleAd) ∧
    buyNowPieces.length < 5 ∧
    (sampleClient (piecesSource buyNowPieces)).AdCortexGenerateContext 5 (some sampleAd)
      = some (renderScan sampleAd 0 (piecesSource buyNowPieces)) :=
  ⟨buyNowPieces_texts, buyNowPieces_tokens sampleAd (by decide) (by decide), by decide,
    (render_single_scan 5 sampleAd buyNowPieces buyNowPieces_texts
      (buyNowPieces_tokens sampleAd (by decide) (by decide)) (by decide)).1
      (sampleClient (piecesSource buyNowPieces)) rfl⟩

theorem piecesRendered_no_brace (ad : AdCortexAd) (ps : List Piece)
    (htext : ∀ t, Piece.text t ∈ ps → openBrace ∉ t)
    (hfields : ∀ k, Piece.token k ∈ ps → openBrace ∉ k.field ad) :
    openBrace ∉ piecesRendered ad ps := by
  induction ps with
  | nil => simp [piecesRendered]
  | cons p ps ih =>
    simp only [piecesRendered, List.mem_append, not_or]
    refine ⟨?_, ih (fun t ht => htext t (List.mem_cons_of_mem _ ht))
      (fun k hk => hfields k (List.mem_cons_of_mem _ hk))⟩
    cases p with
    | text t => exact htext t (List.mem_cons_self _ _)
    | token k => exact hfields k (List.mem_cons_self _ _)

theorem token_absent_of_no_brace (k : Token) (out : GoString) (h : openBrace ∉ out) :
    ¬ List.IsInfix k.text out := by
  intro hin
  obtain ⟨tail, hk, -⟩ := token_text_shape k
  exact h (hin.subset (by rw [hk]; exact List.mem_cons_self _ _))

/-- C12, as the code has it.  For every template and every ad that is not `nil`, a string
returned by `AdCortexGenerateContext` (or by `AdCortexCreateContext` for the latest ad)
holds no occurrence of `{link}`, the token of the last pass.  It holds no occurrence of
any of the four tokens, and it is returned, when the template is made of tokens and of
texts without an opening brace and the fields of the ad, for the tokens of the template,
hold no opening brace. -/
theorem render_leaves_no_link_token {μ : Type} (fuel : Nat) (ad : AdCortexAd) :
    (∀ (c : AdCortexClient μ) (out : GoString),
      c.AdCortexGenerateContext fuel (some ad) = some out →
      ¬ List.IsInfix (str "\x7blink\x7d") out) ∧
    (∀ (c : AdCortexChatClient μ) (out : GoString), c.latestAd = some ad →
      c.AdCortexCreateContext fuel = some out →
      ¬ List.IsInfix (str "\x7blink\x7d") out) ∧
    (∀ (ps : List Piece), (∀ t, Piece.text t ∈ ps → openBrace ∉ t) →
      (∀ k, Piece.token k ∈ ps → openBrace ∉ k.field ad) → ps.length < fuel →
      (∀ c : AdCortexClient μ, c.contextTemplate = piecesSource ps →
        ∃ out, c.AdCortexGenerateContext fuel (some ad) = some out ∧
          ∀ k : Token, ¬ List.IsInfix k.text out) ∧
      (∀ c : AdCortexChatClient μ, c.contextTemplate = piecesSource ps →
        c.latestAd = some ad →
        ∃ out, c.AdCortexCreateContext fuel = some out ∧
          ∀ k : Token, ¬ List.IsInfix k.text out)) := by
  have hlast : ∀ (o : Option GoString) (out : GoString),
      (o.bind fun result => adCortexStrReplace fuel result (str "\x7blink\x7d") ad.Link)
        = some out → ¬ List.IsInfix (str "\x7blink\x7d") out := by
    intro o out h
    cases o with
    | none => simp at h
    | some s =>
      rw [Option.some_bind] at h
      exact replaceAll_result_absent fuel s _ _ out h
  refine ⟨fun c out h => ?_, fun c out had h => ?_, fun ps htext hfields hfuel => ⟨?_, ?_⟩⟩
  · unfold AdCortexClient.AdCortexGenerateContext at h
    simp only [← Option.bind_assoc] at h
    exact hlast _ out h
  · unfold AdCortexChatClient.AdCortexCreateContext at h
    simp only [had, ← Option.bind_assoc] at h
    exact hlast _ out h
  · intro c hc
    exact ⟨_, generateContext_pieces c ad ps fuel hc htext hfields hfuel,
      fun k => token_absent_of_no_brace k _ (piecesRendered_no_brace ad ps htext hfields)⟩
  · intro c hc had
    exact ⟨_, createContext_pieces c ad ps fuel hc had htext hfields hfuel,
      fun k => token_absent_of_no_brace k _ (piecesRendered_no_brace ad ps htext hfields)⟩

/-- C12 as stated fails.  For the template `{link}` and an ad whose link is `{ad_title}`,
the pass of the title token is over when the last pass inserts the link: the output is
`{ad_title}`, an occurrence of a token. -/
theorem render_leaves_no_link_token_counterexample :
    (sampleClient (str "\x7blink\x7d")).AdCortexGenerateContext 10 (some leftoverAd)
      = some (str "\x7bad_title\x7d") ∧
    List.IsInfix (str "\x7bad_title\x7d") (str "\x7bad_title\x7d") :=
  ⟨by decide, List.infix_refl _⟩

/-- The template and the ad of the test as an instance of the amended C12. -/
theorem render_leaves_no_link_token_witness :
    ∃ out,
      (sampleClient (piecesSource buyNowPieces)).AdCortexGenerateContext 5 (some sampleAd)
        = some out ∧ ∀ k : Token, ¬ List.IsInfix k.text out :=
  ((render_leaves_no_link_token 5 sampleAd).2.2 buyNowPieces buyNowPieces_texts
    (buyNowPieces_tokens sampleAd (by decide) (by decide)) (by decide)).1
    (sampleClient (piecesSource buyNowPieces)) rfl

/-- C18.  The helper is not the replace-all of the Go library.  On `{li{link}nk}` with
`{link}` replaced by the empty string, as the pass of the link token does for that
template and an ad with an empty link, the helper scans the string again from its start
after the replacement, finds the `{link}` that the replacement has put together and
returns the empty string, where the library function returns `{link}`.  On a string in
which `old` occurs, with `new` equal to `old`, the loop of the helper never reaches its
`break`, where the library function returns the string. -/
theorem replaceAll_not_strings_replaceAll :
    adCortexReplaceAll 10 (str "\x7bli\x7blink\x7dnk\x7d") (str "\x7blink\x7d") []
      = some [] ∧
    stringsReplaceAll (str "\x7bli\x7blink\x7dnk\x7d") (str "\x7blink\x7d") []
      = str "\x7blink\x7d" ∧
    (∀ fuel : Nat,
      adCortexReplaceAll fuel (str "\x7bad_title\x7d") (str "\x7bad_title\x7d")
        (str "\x7bad_title\x7d") = none) ∧
    stringsReplaceAll (str "\x7bad_title\x7d") (str "\x7bad_title\x7d")
        (str "\x7bad_title\x7d") = str "\x7bad_title\x7d" :=
  ⟨by decide, by decide, fun fuel => replaceAll_self_loops fuel _, by decide⟩

/-- C19.  Rendering does not terminate on every input: for the template `{ad_title}` and
an ad whose title is `{ad_title}`, each replacement of the first loop puts the token back,
so the loop never reaches its `break`, whatever number of iterations it is allowed, and
neither `AdCortexGenerateContext` nor `AdCortexCreateContext` returns. -/
theorem render_loops_on_own_token (fuel : Nat) :
    (sampleClient (str "\x7bad_title\x7d")).AdCortexGenerateContext fuel (some loopAd)
      = none ∧
    ({ sampleChat 3 2 with
        contextTemplate := str "\x7bad_title\x7d"
        latestAd := some loopAd } : AdCortexChatClient Unit).AdCortexCreateContext fuel
      = none := by
  have h := replaceAll_self_loops fuel (str "\x7bad_title\x7d")
  constructor
  · unfold AdCortexClient.AdCortexGenerateContext
    simp only [sampleClient, loopAd, adCortexStrReplace, h, Option.none_bind]
  · unfold AdCortexChatClient.AdCortexCreateContext
    simp only [loopAd, adCortexStrReplace, h, Option.none_bind]

/-- The renderer of the stateless client is the four steps in the order of the code. -/
theorem generateContext_eq_renderInOrder {μ : Type} (fuel : Nat) (c : AdCortexClient μ)
    (ad : AdCortexAd) :
    c.AdCortexGenerateContext fuel (some ad)
      = renderInOrder fuel ad codeOrder c.contextTemplate := by
  unfold AdCortexClient.AdCortexGenerateContext
  simp only [codeOrder, renderInOrder, Token.text, Token.field]
  congr 1; funext r1; congr 1; funext r2; congr 1; funext r3
  cases adCortexStrReplace fuel r3 (str "\x7blink\x7d") ad.Link <;> rfl

/-- The renderer of the chat client is the four steps in the order of the code. -/
theorem createContext_eq_renderInOrder {μ : Type} (fuel : Nat) (c : AdCortexChatClient μ)
    (ad : AdCortexAd) (had : c.latestAd = some ad) :
    c.AdCortexCreateContext fuel = renderInOrder fuel ad codeOrder c.contextTemplate := by
  unfold AdCortexChatClient.AdCortexCreateContext
  simp only [had, codeOrder, renderInOrder, Token.text, Token.field]
  congr 1; funext r1; congr 1; funext r2; congr 1; funext r3
  cases adCortexStrReplace fuel r3 (str "\x7blink\x7d") ad.Link <;> rfl

/-- The steps of the renderer, in any order, over a template made of pieces whose texts
hold no opening brace, for an ad whose fields, for the tokens among the pieces, hold
none: each step turns the pieces of its token into the text of the field. -/
theorem renderInOrder_pieces (fuel : Nat) (ad : AdCortexAd) (order : List Token)
    (ps : List Piece) (htext : ∀ t, Piece.text t ∈ ps → openBrace ∉ t)
    (hfields : ∀ k, Piece.token k ∈ ps → openBrace ∉ k.field ad)
    (hfuel : ps.length < fuel) :
    renderInOrder fuel ad order (piecesSource ps)
      = some (piecesSource (substituteInOrder ad order ps)) := by
  induction order generalizing ps with
  | nil => rfl
  | cons k ks ih =>
    have hcount : ps.count (Piece.token k) < fuel := by
      have := List.count_le_length (Piece.token k) ps
      omega
    have h1 := replaceAll_pieces k (k.field ad) fuel ps htext (fun h => hfields k h) hcount
    rw [renderInOrder, adCortexStrReplace, h1, Option.some_bind, substituteInOrder]
    exact ih (ps.map (Piece.substitute k (k.field ad)))
      (substitute_texts k (k.field ad) ps htext (fun h => hfields k h))
      (fun m hm => hfields m (substitute_tokens k (k.field ad) ps m hm))
      (by rw [List.length_map]; exact hfuel)

theorem substituteInOrder_cons (ad : AdCortexAd) (order : List Token) (p : Piece)
    (ps : List Piece) :
    substituteInOrder ad order (p :: ps)
      = (substituteInOrder ad order [p]) ++ substituteInOrder ad order ps := by
  induction order generalizing p ps with
  | nil => rfl
  | cons k ks ih =>
    simp only [substituteInOrder, List.map_cons, List.map_nil]
    exact ih _ _

/-- After the passes of a list of tokens that holds the token of a piece, the piece is the
text of its field; a text is left as it is. -/
theorem substituteInOrder_piece (ad : AdCortexAd) (order : List Token) (p : Piece)
    (hp : ∀ k, p = Piece.token k → k ∈ order) :
    piecesSource (substituteInOrder ad order [p]) = p.rendered ad := by
  induction order generalizing p with
  | nil =>
    cases p with
    | text t => simp [substituteInOrder, piecesSource, Piece.source, Piece.rendered]
    | token k => exact absurd (hp k rfl) (List.not_mem_nil k)
  | cons k ks ih =>
    simp only [substituteInOrder, List.map_cons, List.map_nil]
    cases p with
    | text t =>
      exact ih (Piece.text t) (fun m hm => by cases hm)
    | token m =>
      by_cases hm : m = k
      · simp only [Piece.substitute, hm, if_true]
        rw [ih (Piece.text (k.field ad)) (fun n hn => by cases hn)]
        rfl
      · simp only [Piece.substitute, hm, if_false]
        refine ih (Piece.token m) (fun n hn => ?_)
        rw [Piece.token.injEq] at hn
        rcases List.mem_cons.mp (hp m rfl) with h | h
        · exact absurd h hm
        · rw [← hn]; exact h

/-- After the passes of a list that holds the four tokens, in any order, the pieces hold
their rendered text. -/
theorem substituteInOrder_rendered (ad : AdCortexAd) (order : List Token)
    (hall : ∀ k : Token, k ∈ order) (ps : List Piece) :
    piecesSource (substituteInOrder ad order ps) = piecesRendered ad ps := by
  induction ps with
  | nil =>
    have : substituteInOrder ad order [] = [] := by
      clear hall
      induction order with
      | nil => rfl
      | cons k ks ih => simpa [substituteInOrder] using ih
    rw [this]; rfl
  | cons p ps ih =>
    rw [substituteInOrder_cons, piecesSource_append, ih,
      substituteInOrder_piece ad order p (fun k _ => hall k)]
    rfl

theorem mem_of_perm_codeOrder (order : List Token) (h : List.Perm order codeOrder)
    (k : Token) : k ∈ order := by
  rw [h.mem_iff]
  cases k <;> simp [codeOrder]

/-- C21, as the code has it.  For a template that is made of tokens and of texts without
an opening brace, and an ad that is not `nil` and whose fields, for the tokens of the
template, hold no opening brace, the four `adCortexStrReplace` steps applied in any
permutation of the four tokens give the output of `AdCortexGenerateContext` (and of
`AdCortexCreateContext` for the latest ad), which applies them in the order title,
description, placement template, link. -/
theorem render_order_irrelevant {μ : Type} (fuel : Nat) (ad : AdCortexAd)
    (ps : List Piece) (order : List Token)
    (htext : ∀ t, Piece.text t ∈ ps → openBrace ∉ t)
    (hfields : ∀ k, Piece.token k ∈ ps → openBrace ∉ k.field ad)
    (hfuel : ps.length < fuel) (horder : List.Perm order codeOrder) :
    renderInOrder fuel ad order (piecesSource ps) = some (piecesRendered ad ps) ∧
    (∀ c : AdCortexClient μ, c.contextTemplate = piecesSource ps →
      renderInOrder fuel ad order c.contextTemplate
        = c.AdCortexGenerateContext fuel (some ad)) ∧
    (∀ c : AdCortexChatClient μ, c.contextTemplate = piecesSource ps →
      c.latestAd = some ad →
      renderInOrder fuel ad order c.contextTemplate = c.AdCortexCreateContext fuel) := by
  have hany : ∀ o : List Token, List.Perm o codeOrder →
      renderInOrder fuel ad o (piecesSource ps) = some (piecesRendered ad ps) := by
    intro o ho
    rw [renderInOrder_pieces fuel ad o ps htext hfields hfuel,
      substituteInOrder_rendered ad o (mem_of_perm_codeOrder o ho) ps]
  refine ⟨hany order horder, fun c hc => ?_, fun c hc had => ?_⟩
  · rw [generateContext_eq_renderInOrder, hc, hany order horder,
      hany codeOrder (List.Perm.refl _)]
  · rw [createContext_eq_renderInOrder fuel c ad had, hc, hany order horder,
      hany codeOrder (List.Perm.refl _)]

/-- C21 as stated fails.  For the template `{ad_title}` and an ad whose title is `{link}`
and whose link is `L`, the order of the code substitutes the link into the inserted title
and gives `L`; the order link, title, description, placement template, a permutation of
it, has passed the link token when the title is inserted and gives `{link}`. -/
theorem render_order_irrelevant_counterexample :
    List.Perm [Token.link, .adTitle, .adDescription, .placementTemplate] codeOrder ∧
    (sampleClient (str "\x7bad_title\x7d")).AdCortexGenerateContext 10 (some cascadeAd)
      = some (str "L") ∧
    renderInOrder 10 cascadeAd codeOrder (str "\x7bad_title\x7d") = some (str "L") ∧
    renderInOrder 10 cascadeAd [.link, .adTitle, .adDescription, .placementTemplate]
        (str "\x7bad_title\x7d") = some (str "\x7blink\x7d") ∧
    renderInOrder 10 cascadeAd [.link, .adTitle, .adDescription, .placementTemplate]
        (str "\x7bad_title\x7d")
      ≠ (sampleClient (str "\x7bad_title\x7d")).AdCortexGenerateContext 10
          (some cascadeAd) :=
  ⟨by decide, by decide, by decide, by decide, by decide⟩

/-- The template and the ad of the test, with the link substituted first, as an instance
of the amended C21. -/
theorem render_order_irrelevant_witness :
    (∀ t, Piece.text t ∈ buyNowPieces → openBrace ∉ t) ∧
    (∀ k, Piece.token k ∈ buyNowPieces → openBrace ∉ k.field sampleAd) ∧
    buyNowPieces.length < 5 ∧
    List.Perm [Token.link, .adTitle, .adDescription, .placementTemplate] codeOrder ∧
    renderInOrder 5 sampleAd [.link, .adTitle, .adDescription, .placementTemplate]
        (sampleClient (piecesSource buyNowPieces)).contextTemplate
      = (sampleClient (piecesSource buyNowPieces)).AdCortexGenerateContext 5
          (some sampleAd) :=
  ⟨buyNowPieces_texts, buyNowPieces_tokens sampleAd (by decide) (by decide), by decide,
    by decide,
    (render_order_irrelevant 5 sampleAd buyNowPieces
      [.link, .adTitle, .adDescription, .placementTemplate] buyNowPieces_texts
      (buyNowPieces_tokens sampleAd (by decide) (by decide)) (by decide) (by decide)).2.1
      (sampleClient (piecesSource buyNowPieces)) rfl⟩

end AdCortex
